import Mathlib

/-!
Verification of the Evolvra content-automation repository
(`content_bot.py`, `writer.py`, `topics.py`, `utils.py`).

The Python sources are shallowly embedded below.  Text is modelled as
`String` / `List Char`; Python string primitives (`in`, `count`,
`replace`, `strip`, `lower`, `re` searches for the concrete patterns used
by the code) are given executable Lean counterparts; `json.loads` is
modelled by a strict JSON parser; fallible Python code returns
`Except`/`Option`.
-/

set_option maxRecDepth 100000

namespace Evolvra

/-! ## Python string primitives -/

/-- Python whitespace (`str.strip`, `str.isspace`, and the regex class
`\s` in unicode mode): ASCII whitespace plus the unicode space and
separator characters. -/
def isPySpace (c : Char) : Bool :=
  c == ' ' || c == '\t' || c == '\n' || c == '\r' ||
  c == Char.ofNat 0x0b || c == Char.ofNat 0x0c ||
  (Char.ofNat 0x1c ≤ c && c ≤ Char.ofNat 0x1f) ||
  c == Char.ofNat 0x85 || c == Char.ofNat 0xa0 ||
  c == Char.ofNat 0x1680 ||
  (Char.ofNat 0x2000 ≤ c && c ≤ Char.ofNat 0x200a) ||
  c == Char.ofNat 0x2028 || c == Char.ofNat 0x2029 ||
  c == Char.ofNat 0x202f || c == Char.ofNat 0x205f ||
  c == Char.ofNat 0x3000

/-- Python `str.strip()` on a character list. -/
def pyStripL (s : List Char) : List Char :=
  ((s.dropWhile isPySpace).reverse.dropWhile isPySpace).reverse

/-- Python `str.strip()`. -/
def pyStrip (s : String) : String :=
  ⟨pyStripL s.data⟩

/-- Predicate `isPre n s` holds when the character list `n` is an initial segment
of `s` (used to model Python substring primitives). -/
def isPre : List Char → List Char → Bool
  | [], _ => true
  | _ :: _, [] => false
  | a :: as, b :: bs => a == b && isPre as bs

/-- Python `needle in hay` on character lists. -/
def listContains (hay needle : List Char) : Bool :=
  if isPre needle hay then true
  else
    match hay with
    | [] => false
    | _ :: t => listContains t needle

/-- Python `needle in hay` on strings. -/
def containsSub (hay needle : String) : Bool :=
  listContains hay.data needle.data

theorem isPre_length {n s : List Char} (h : isPre n s = true) :
    n.length ≤ s.length := by
  induction n generalizing s with
  | nil => exact Nat.zero_le _
  | cons a as ih =>
    cases s with
    | nil => simp [isPre] at h
    | cons b bs =>
      simp only [isPre, Bool.and_eq_true] at h
      simpa [List.length] using Nat.succ_le_succ (ih h.2)

theorem isPre_of_append_of_le {n s : List Char} {b : List Char}
    (h : isPre n (s ++ b) = true) (hlen : n.length ≤ s.length) :
    isPre n s = true := by
  induction n generalizing s with
  | nil => simp [isPre]
  | cons a as ih =>
    cases s with
    | nil => simp at hlen
    | cons c t =>
      simp only [List.cons_append, isPre, Bool.and_eq_true] at h ⊢
      exact ⟨h.1, ih h.2 (by simpa using Nat.le_of_succ_le_succ hlen)⟩

theorem isPre_append {n s : List Char} (t : List Char)
    (h : isPre n s = true) : isPre n (s ++ t) = true := by
  induction n generalizing s with
  | nil => simp [isPre]
  | cons a as ih =>
    cases s with
    | nil => simp [isPre] at h
    | cons b bs =>
      simp only [isPre, Bool.and_eq_true] at h ⊢
      exact ⟨h.1, ih h.2⟩

/-- Helper for `countSub`: `skip` counts characters still belonging to
the previously counted occurrence. -/
def countAux (needle : List Char) : Nat → List Char → Nat
  | _, [] => 0
  | s + 1, _ :: t => countAux needle s t
  | 0, c :: t =>
    if isPre needle (c :: t) then 1 + countAux needle (needle.length - 1) t
    else countAux needle 0 t

/-- Python `hay.count(needle)` (non-overlapping, left to right); the
needle is non-empty at every call site. -/
def countSub (needle hay : List Char) : Nat :=
  countAux needle 0 hay

/-- Helper for `removeAll`, with the same skip counter as `countAux`. -/
def removeAux (needle : List Char) : Nat → List Char → List Char
  | _, [] => []
  | s + 1, _ :: t => removeAux needle s t
  | 0, c :: t =>
    if isPre needle (c :: t) then removeAux needle (needle.length - 1) t
    else c :: removeAux needle 0 t

/-- Python `hay.replace(needle, "")` (non-overlapping, left to right);
the needle is non-empty at every call site. -/
def removeAll (needle hay : List Char) : List Char :=
  removeAux needle 0 hay

/-- Python `hay.replace(needle, "")` on strings. -/
def removeSub (hay needle : String) : String :=
  ⟨removeAll needle.data hay.data⟩

theorem countAux_zero_of_short {n : List Char} {s : Nat} {l : List Char}
    (h : l.length < n.length) : countAux n s l = 0 := by
  induction l generalizing s with
  | nil => cases s <;> rfl
  | cons c t ih =>
    have ht : t.length < n.length :=
      Nat.lt_of_le_of_lt (Nat.le_succ _) h
    cases s with
    | succ s => exact ih ht
    | zero =>
      rw [countAux]
      have hpre : isPre n (c :: t) = false := by
        cases hp : isPre n (c :: t) with
        | false => rfl
        | true => exact absurd (isPre_length hp) (Nat.not_le_of_lt h)
      simp only [hpre, if_false]
      exact ih ht

theorem countAux_le_append (n : List Char) (s : Nat) (a b : List Char) :
    countAux n s a ≤ countAux n s (a ++ b) := by
  induction a generalizing s with
  | nil => simp [countAux]
  | cons c t ih =>
    cases s with
    | succ s => exact ih s
    | zero =>
      rw [List.cons_append, countAux, countAux]
      cases hpre : isPre n (c :: t) with
      | true =>
        have hpre' : isPre n (c :: (t ++ b)) = true := by
          have := isPre_append b hpre
          simpa using this
        simp only [hpre', if_true]
        exact Nat.add_le_add_left (ih _) 1
      | false =>
        simp only [Bool.false_eq_true, if_false]
        cases hpre2 : isPre n (c :: (t ++ b)) with
        | true =>
          simp only [if_true]
          have hshort : (c :: t).length < n.length := by
            by_contra hge
            push_neg at hge
            rw [isPre_of_append_of_le (by simpa using hpre2) hge] at hpre
            exact Bool.true_eq_false.mp hpre
          have h0 : countAux n 0 t = 0 :=
            countAux_zero_of_short
              (Nat.lt_of_le_of_lt (Nat.le_succ _) (by simpa using hshort))
          omega
        | false =>
          simp only [Bool.false_eq_true, if_false]
          exact ih 0

/-- Appending text never decreases a non-overlapping substring count. -/
theorem countSub_le_append (n a b : List Char) :
    countSub n a ≤ countSub n (a ++ b) :=
  countAux_le_append n 0 a b

/-! ## `utils.slugify` -/

/-- Character class kept by `re.sub(r"[^a-zA-Z0-9\s-]", "", text)`:
ASCII letters and digits, whitespace, and the hyphen. -/
def keepSlugChar (c : Char) : Bool :=
  c.isAlpha || c.isDigit || isPySpace c || c == '-'

/-- The regex class `[\s-]`. -/
def isDashSpace (c : Char) : Bool :=
  isPySpace c || c == '-'

/-- The substitution `re.sub(r"[\s-]+", "-", s)`: each maximal run of whitespace/hyphen
characters becomes a single hyphen.  The flag records whether we are
inside such a run. -/
def collapseRuns (inRun : Bool) : List Char → List Char
  | [] => []
  | c :: t =>
    if isDashSpace c then
      if inRun then collapseRuns true t else '-' :: collapseRuns true t
    else
      c :: collapseRuns false t

/-- Function `utils.slugify`: drop characters outside `[a-zA-Z0-9\s-]`, strip,
lowercase, collapse whitespace/hyphen runs to `-`, and fall back to
`"untitled"` when the result is empty. -/
def slugify (text : String) : String :=
  let cleaned := (pyStripL (text.data.filter keepSlugChar)).map Char.toLower
  let slug := collapseRuns false cleaned
  if slug.isEmpty then "untitled" else ⟨slug⟩

/-- Characters allowed in a slug: `[a-z0-9-]`. -/
def slugChar (c : Char) : Bool :=
  c.isLower || c.isDigit || c == '-'

theorem mem_collapseRuns {b : Bool} {l : List Char} {c : Char}
    (h : c ∈ collapseRuns b l) :
    c = '-' ∨ (c ∈ l ∧ isDashSpace c = false) := by
  induction l generalizing b with
  | nil => simp [collapseRuns] at h
  | cons a t ih =>
    by_cases ha : isDashSpace a = true
    · cases b with
      | true =>
        simp only [collapseRuns, ha, if_true] at h
        rcases ih h with h' | h'
        · exact Or.inl h'
        · exact Or.inr ⟨List.mem_cons_of_mem _ h'.1, h'.2⟩
      | false =>
        simp only [collapseRuns, ha, if_true] at h
        rcases List.mem_cons.mp h with h' | h'
        · exact Or.inl h'
        · rcases ih h' with h'' | h''
          · exact Or.inl h''
          · exact Or.inr ⟨List.mem_cons_of_mem _ h''.1, h''.2⟩
    · simp only [collapseRuns, ha, if_false] at h
      rcases List.mem_cons.mp h with h' | h'
      · subst h'
        exact Or.inr ⟨List.mem_cons_self _ _, by simpa using ha⟩
      · rcases ih h' with h'' | h''
        · exact Or.inl h''
        · exact Or.inr ⟨List.mem_cons_of_mem _ h''.1, h''.2⟩

theorem head?_collapseRuns_true {l : List Char} {c : Char}
    (h : (collapseRuns true l).head? = some c) : isDashSpace c = false := by
  induction l with
  | nil => simp [collapseRuns] at h
  | cons a t ih =>
    cases ha : isDashSpace a with
    | true =>
      simp only [collapseRuns, ha, if_true] at h
      exact ih h
    | false =>
      simp only [collapseRuns, ha, Bool.false_eq_true, if_false,
        List.head?_cons, Option.some.injEq] at h
      subst h
      exact ha

/-- No two adjacent hyphens. -/
def noAdjDash : List Char → Bool
  | a :: b :: t => !(a == '-' && b == '-') && noAdjDash (b :: t)
  | _ => true

theorem noAdjDash_cons {a : Char} {l : List Char}
    (h1 : ∀ c, l.head? = some c → ¬(a = '-' ∧ c = '-'))
    (h2 : noAdjDash l = true) : noAdjDash (a :: l) = true := by
  cases l with
  | nil => rfl
  | cons b t =>
    have := h1 b rfl
    simp only [noAdjDash, Bool.and_eq_true, Bool.not_eq_true',
      Bool.and_eq_false_iff]
    refine ⟨?_, h2⟩
    by_cases hab : a = '-'
    · right
      have : ¬ b = '-' := fun hb => this ⟨hab, hb⟩
      simpa [beq_iff_eq] using this
    · left
      simpa [beq_iff_eq] using hab

theorem noAdjDash_collapseRuns (b : Bool) (l : List Char) :
    noAdjDash (collapseRuns b l) = true := by
  induction l generalizing b with
  | nil => cases b <;> rfl
  | cons a t ih =>
    by_cases ha : isDashSpace a = true
    · cases b with
      | true => simpa [collapseRuns, ha] using ih true
      | false =>
        simp only [collapseRuns, ha, if_true, if_false]
        refine noAdjDash_cons ?_ (ih true)
        intro c hc ⟨_, hcd⟩
        have := head?_collapseRuns_true hc
        rw [hcd] at this
        simp [isDashSpace] at this
    · simp only [collapseRuns, ha, if_false]
      refine noAdjDash_cons ?_ (ih false)
      intro c hc ⟨had, _⟩
      rw [had] at ha
      simp [isDashSpace] at ha

theorem noAdjDash_tail {a : Char} {l : List Char}
    (h : noAdjDash (a :: l) = true) : noAdjDash l = true := by
  cases l with
  | nil => rfl
  | cons b t =>
    simp only [noAdjDash, Bool.and_eq_true] at h
    exact h.2

/-- Collapsing is the identity: `collapseRuns` on whitespace-free strings with no
adjacent hyphens; with the in-run flag set it is the identity when the
head is additionally not a hyphen. -/
theorem collapseRuns_eq_self {l : List Char}
    (hws : ∀ c ∈ l, isPySpace c = false) (hdd : noAdjDash l = true) :
    collapseRuns false l = l ∧
      ((∀ c, l.head? = some c → c ≠ '-') → collapseRuns true l = l) := by
  induction l with
  | nil => exact ⟨rfl, fun _ => rfl⟩
  | cons a t ih =>
    have hwst : ∀ c ∈ t, isPySpace c = false :=
      fun c hc => hws c (List.mem_cons_of_mem _ hc)
    have ihp := ih hwst (noAdjDash_tail hdd)
    by_cases hda : a = '-'
    · subst hda
      have hta : collapseRuns true t = t := by
        refine ihp.2 ?_
        intro c hc hcd
        subst hcd
        cases t with
        | nil => simp at hc
        | cons b t' =>
          simp only [List.head?_cons, Option.some.injEq] at hc
          subst hc
          simp [noAdjDash] at hdd
      constructor
      · simp [collapseRuns, isDashSpace, hta]
      · intro hh
        exact absurd rfl (hh '-' rfl)
    · have hnd : isDashSpace a = false := by
        have := hws a (List.mem_cons_self _ _)
        simp [isDashSpace, this, hda]
      constructor
      · simp [collapseRuns, hnd, ihp.1]
      · intro _
        simp [collapseRuns, hnd, ihp.1]

/-! ## `writer.self_check` -/

/-- The list `writer.REQUIRED_HEADINGS`. -/
def REQUIRED_HEADINGS : List String :=
  ["# ", "## Hook", "## Context", "## What to do next", "## Conclusion"]

/-- The three-character sequence U+00E2 U+20AC U+201D that `self_check`
literally tests for on line 125 of `writer.py` (it is the UTF-8 encoding
of an em dash re-decoded as Windows-1252, i.e. mojibake, not the em dash
itself). -/
def mojiDash : String :=
  ⟨[Char.ofNat 0xE2, Char.ofNat 0x20AC, Char.ofNat 0x201D]⟩

/-- The em dash character U+2014. -/
def emDash : Char := Char.ofNat 0x2014

/-- The regex word class `\w` (restricted to the ASCII range, which is
all the pattern's literals can match). -/
def isWordChar (c : Char) : Bool :=
  c.isAlpha || c.isDigit || c == '_'

/-- A word boundary `\b` holds before a word character iff the previous
character (if any) is not a word character. -/
def boundaryOk : Option Char → Bool
  | none => true
  | some p => !isWordChar p

/-- Match a literal word at the head of the input, returning the rest. -/
def dropWord : List Char → List Char → Option (List Char)
  | [], s => some s
  | _ :: _, [] => none
  | a :: as, b :: bs => if a == b then dropWord as bs else none

/-- A word boundary `\b` holds after a word character iff the next
character (if any) is not a word character. -/
def afterBoundary : List Char → Bool
  | [] => true
  | c :: _ => !isWordChar c

/-- After an initial digit, `\d+%` matches iff the digit run is followed
immediately by `%`. -/
def pctAfter : List Char → Bool
  | [] => false
  | b :: r => if b == '%' then true else if b.isDigit then pctAfter r else false

/-- Pattern `\d+%` matches a prefix of the input. -/
def digitsPct : List Char → Bool
  | [] => false
  | a :: r => a.isDigit && pctAfter r

/-- Pattern `.*\d+%` continues the match: a `\d+%` occurrence before the next
newline (`.` does not match a newline; the pattern has no DOTALL flag). -/
def findPct : List Char → Bool
  | [] => false
  | c :: t => if c == '\n' then false else digitsPct (c :: t) || findPct t

/-- The verb alternatives of the fabricated-claim regex. -/
def claimVerbs : List (List Char) :=
  ["achieved".data, "increased".data, "grew".data, "boosted".data]

/-- Pattern `.*\b(achieved|increased|grew|boosted)\b.*\d+%` from a position with
the given previous character, staying on the current line. -/
def findVerb (prev : Option Char) : List Char → Bool
  | [] => false
  | c :: t =>
    if c == '\n' then false
    else
      (boundaryOk prev &&
        claimVerbs.any fun w =>
          match dropWord w (c :: t) with
          | some rest => afterBoundary rest && findPct rest
          | none => false)
      || findVerb (some c) t

/-- The brand alternatives of the fabricated-claim regex. -/
def claimBrands : List (List Char) :=
  ["we".data, "our team".data, "evolvra".data]

/-- The search `re.search` of
`\\b(we|our team|evolvra)\\b.*\\b(achieved|increased|grew|boosted)\\b.*\\d+%`
on a lowercased text (the IGNORECASE flag), scanning every start
position. -/
def findBrand (prev : Option Char) : List Char → Bool
  | [] => false
  | c :: t =>
    (boundaryOk prev &&
      claimBrands.any fun w =>
        match dropWord w (c :: t) with
        | some rest => afterBoundary rest && findVerb w.getLast? rest
        | none => false)
    || findBrand (some c) t

/-- The fabricated-percentage-claim scan of `self_check` (line 131 of
`writer.py`), with `re.IGNORECASE` modelled by lowercasing. -/
def fakeClaimSearch (article : String) : Bool :=
  findBrand none (article.data.map Char.toLower)

/-- Method `ContentWriter.self_check` / `validate_article_structure`: the
rule-based structural validation of an article. -/
def self_check (article : String) : List String :=
  (if containsSub article mojiDash then ["Contains em dash."] else [])
  ++ (REQUIRED_HEADINGS.filterMap fun h =>
        if containsSub article h then none
        else some ("Missing heading: " ++ h))
  ++ (if countSub "## ".data article.data < 6 then
        ["Not enough section headings."] else [])
  ++ (if !containsSub article "- [ ]" && !containsSub article "- " then
        ["Checklist missing."] else [])
  ++ (if fakeClaimSearch article then
        ["Potential fabricated percentage claim."] else [])

/-! ### Character-level facts -/

theorem char_le_iff {a b : Char} : a ≤ b ↔ a.toNat ≤ b.toNat := by
  rw [Char.le_def, UInt32.le_def]
  simp [Char.toNat, UInt32.toNat, BitVec.le_def]

theorem char_toNat_ofNat {n : Nat} (h : n < 0xd800) :
    (Char.ofNat n).toNat = n := by
  rw [Char.ofNat, dif_pos (Or.inl h)]
  simp [Char.ofNatAux, Char.toNat, UInt32.toNat]

theorem isUpper_iff {c : Char} :
    c.isUpper = true ↔ 65 ≤ c.toNat ∧ c.toNat ≤ 90 := by
  simp only [Char.isUpper, Bool.and_eq_true, decide_eq_true_eq, char_le_iff]
  constructor
  · intro ⟨h1, h2⟩
    exact ⟨h1, h2⟩
  · intro ⟨h1, h2⟩
    exact ⟨h1, h2⟩

theorem isLower_iff {c : Char} :
    c.isLower = true ↔ 97 ≤ c.toNat ∧ c.toNat ≤ 122 := by
  simp only [Char.isLower, Bool.and_eq_true, decide_eq_true_eq, char_le_iff]
  exact ⟨fun ⟨h1, h2⟩ => ⟨h1, h2⟩, fun ⟨h1, h2⟩ => ⟨h1, h2⟩⟩

theorem isDigit_iff {c : Char} :
    c.isDigit = true ↔ 48 ≤ c.toNat ∧ c.toNat ≤ 57 := by
  simp only [Char.isDigit, Bool.and_eq_true, decide_eq_true_eq, char_le_iff]
  exact ⟨fun ⟨h1, h2⟩ => ⟨h1, h2⟩, fun ⟨h1, h2⟩ => ⟨h1, h2⟩⟩

theorem toLower_eq_of_not_upper {c : Char}
    (h : ¬(65 ≤ c.toNat ∧ c.toNat ≤ 90)) : c.toLower = c := by
  rw [Char.toLower, if_neg]
  simpa [ge_iff_le] using h

theorem isLower_toLower_of_upper {c : Char}
    (h : 65 ≤ c.toNat ∧ c.toNat ≤ 90) : (c.toLower).isLower = true := by
  rw [Char.toLower, if_pos (by simpa [ge_iff_le] using h)]
  have hv : (Char.ofNat (c.toNat + 32)).toNat = c.toNat + 32 :=
    char_toNat_ofNat (by omega)
  rw [isLower_iff, hv]
  omega

theorem toNat_out_of_upper_of_pySpace {c : Char} (h : isPySpace c = true) :
    ¬(65 ≤ c.toNat ∧ c.toNat ≤ 90) := by
  simp only [isPySpace, Bool.or_eq_true, beq_iff_eq, Bool.and_eq_true,
    decide_eq_true_eq, char_le_iff] at h
  have e1 : (Char.ofNat 0x1c).toNat = 28 := by decide
  have e2 : (Char.ofNat 0x1f).toNat = 31 := by decide
  have e3 : (Char.ofNat 0x2000).toNat = 8192 := by decide
  have e4 : (Char.ofNat 0x200a).toNat = 8202 := by decide
  rcases h with ((((((((((((((h | h) | h) | h) | h) | h) | ⟨h1, h2⟩) | h)
      | h) | h) | ⟨h1, h2⟩) | h) | h) | h) | h) | h <;>
    first
      | (subst h; decide)
      | (rw [e1] at h1; rw [e2] at h2; omega)
      | (rw [e3] at h1; rw [e4] at h2; omega)

theorem pySpace_toNat_bounds {c : Char} (h : isPySpace c = true) :
    c.toNat ≤ 32 ∨ 133 ≤ c.toNat := by
  simp only [isPySpace, Bool.or_eq_true, beq_iff_eq, Bool.and_eq_true,
    decide_eq_true_eq, char_le_iff] at h
  have e1 : (Char.ofNat 0x1c).toNat = 28 := by decide
  have e2 : (Char.ofNat 0x1f).toNat = 31 := by decide
  have e3 : (Char.ofNat 0x2000).toNat = 8192 := by decide
  have e4 : (Char.ofNat 0x200a).toNat = 8202 := by decide
  rcases h with ((((((((((((((h | h) | h) | h) | h) | h) | ⟨h1, h2⟩) | h)
      | h) | h) | ⟨h1, h2⟩) | h) | h) | h) | h) | h <;>
    first
      | (subst h; decide)
      | (rw [e1] at h1; rw [e2] at h2; omega)
      | (rw [e3] at h1; rw [e4] at h2; omega)

theorem slugChar_toLower_of_keep {d : Char} (hk : keepSlugChar d = true)
    (hnd : isDashSpace d.toLower = false) : slugChar d.toLower = true := by
  simp only [keepSlugChar, Char.isAlpha, Bool.or_eq_true] at hk
  rcases hk with (((hu | hl) | hdig) | hsp) | hdash
  · rw [isUpper_iff] at hu
    have := isLower_toLower_of_upper hu
    simp [slugChar, this]
  · rw [isLower_iff] at hl
    rw [toLower_eq_of_not_upper (by omega)]
    have : d.isLower = true := isLower_iff.mpr hl
    simp [slugChar, this]
  · rw [isDigit_iff] at hdig
    rw [toLower_eq_of_not_upper (by omega)]
    have : d.isDigit = true := isDigit_iff.mpr hdig
    simp [slugChar, this]
  · have hb := pySpace_toNat_bounds hsp
    rw [toLower_eq_of_not_upper (by omega)] at hnd
    rw [isDashSpace, hsp] at hnd
    simp at hnd
  · rw [beq_iff_eq] at hdash
    subst hdash
    rw [show ('-').toLower = '-' from by decide] at hnd
    exact absurd hnd (by decide)

theorem slugChar_of_mem_collapse {x : String} {c : Char}
    (h : c ∈ collapseRuns false
        ((pyStripL (x.data.filter keepSlugChar)).map Char.toLower)) :
    slugChar c = true := by
  rcases mem_collapseRuns h with hc | ⟨hc, hnd⟩
  · subst hc; decide
  · rcases List.mem_map.mp hc with ⟨d, hd, hdc⟩
    have hkeep : keepSlugChar d = true := by
      have hsub : d ∈ x.data.filter keepSlugChar := by
        unfold pyStripL at hd
        rw [List.mem_reverse] at hd
        have := (List.dropWhile_suffix isPySpace).subset hd
        rw [List.mem_reverse] at this
        exact (List.dropWhile_suffix isPySpace).subset this
      exact List.of_mem_filter hsub
    subst hdc
    exact slugChar_toLower_of_keep hkeep hnd

theorem not_pySpace_of_slugChar {c : Char} (h : slugChar c = true) :
    isPySpace c = false := by
  cases hp : isPySpace c with
  | false => rfl
  | true =>
    exfalso
    have hb := pySpace_toNat_bounds hp
    simp only [slugChar, Bool.or_eq_true, beq_iff_eq, isLower_iff,
      isDigit_iff] at h
    rcases h with (h | h) | h
    · omega
    · omega
    · subst h
      revert hb
      decide

theorem toLower_eq_of_slugChar {c : Char} (h : slugChar c = true) :
    c.toLower = c := by
  simp only [slugChar, Bool.or_eq_true, beq_iff_eq, isLower_iff,
    isDigit_iff] at h
  rcases h with (h | h) | h
  · exact toLower_eq_of_not_upper (by omega)
  · exact toLower_eq_of_not_upper (by omega)
  · subst h; decide

theorem dropWhile_eq_self_of_none {p : Char → Bool} {l : List Char}
    (h : ∀ c ∈ l, p c = false) : l.dropWhile p = l := by
  cases l with
  | nil => rfl
  | cons a t =>
    rw [List.dropWhile_cons_of_neg]
    simp [h a (List.mem_cons_self _ _)]

/-- Slugification is the identity on any value it produces. -/
theorem slugify_fix {s : List Char}
    (hchar : ∀ c ∈ s, slugChar c = true) (hdd : noAdjDash s = true)
    (hne : s ≠ []) : slugify ⟨s⟩ = (⟨s⟩ : String) := by
  have hfilter : s.filter keepSlugChar = s := by
    rw [List.filter_eq_self]
    intro c hc
    have := hchar c hc
    simp only [slugChar, Bool.or_eq_true, beq_iff_eq, isLower_iff,
      isDigit_iff] at this
    simp only [keepSlugChar, Char.isAlpha, Bool.or_eq_true, beq_iff_eq,
      isUpper_iff, isLower_iff, isDigit_iff]
    rcases this with (h | h) | h
    · left; left; left; right; exact h
    · left; left; right; exact h
    · right; exact h
  have hws : ∀ c ∈ s, isPySpace c = false :=
    fun c hc => not_pySpace_of_slugChar (hchar c hc)
  have hstrip : pyStripL s = s := by
    unfold pyStripL
    rw [dropWhile_eq_self_of_none hws,
      dropWhile_eq_self_of_none (fun c hc => hws c (List.mem_reverse.mp hc)),
      List.reverse_reverse]
  have hlower : s.map Char.toLower = s := by
    have : ∀ c ∈ s, Char.toLower c = id c :=
      fun c hc => toLower_eq_of_slugChar (hchar c hc)
    rw [List.map_congr_left this, List.map_id]
  have hcoll : collapseRuns false s = s :=
    (collapseRuns_eq_self hws hdd).1
  show (if (collapseRuns false
      ((pyStripL ((⟨s⟩ : String).data.filter keepSlugChar)).map
        Char.toLower)).isEmpty then "untitled"
    else ⟨collapseRuns false
      ((pyStripL ((⟨s⟩ : String).data.filter keepSlugChar)).map
        Char.toLower)⟩) = (⟨s⟩ : String)
  have hdata : (⟨s⟩ : String).data = s := rfl
  rw [hdata, hfilter, hstrip, hlower, hcoll]
  rw [if_neg]
  simp [List.isEmpty_iff, hne]

/--
**C7.** `slugify` is idempotent on its own output; every output consists
only of characters in `[a-z0-9-]` and is never empty (falling back to
`"untitled"` on all-punctuation input); and
`slugify "Hello World!" = "hello-world"`.
-/
theorem claim_C7_slugify :
    (∀ x : String, slugify (slugify x) = slugify x) ∧
    (∀ x : String,
      (slugify x).data.all slugChar = true ∧ slugify x ≠ "") ∧
    slugify "Hello World!" = "hello-world" := by
  have hchars : ∀ x : String, ∀ c ∈ (slugify x).data, slugChar c = true := by
    intro x c hc
    unfold slugify at hc
    by_cases he : (collapseRuns false
        ((pyStripL (x.data.filter keepSlugChar)).map Char.toLower)).isEmpty
    · simp only [he, if_true] at hc
      have hok : ∀ c ∈ "untitled".data, slugChar c = true := by decide
      exact hok c hc
    · simp only [he, if_false] at hc
      exact slugChar_of_mem_collapse (x := x) hc
  refine ⟨?_, fun x => ⟨List.all_eq_true.mpr (hchars x), ?_⟩, by decide⟩
  · intro x
    unfold slugify
    by_cases he : (collapseRuns false
        ((pyStripL (x.data.filter keepSlugChar)).map Char.toLower)).isEmpty
    · simp only [he, if_true]
      decide
    · simp only [he, if_false]
      refine slugify_fix ?_ (noAdjDash_collapseRuns _ _) ?_
      · intro c hc
        exact slugChar_of_mem_collapse (x := x) hc
      · intro hnil
        rw [hnil] at he
        exact he rfl
  · intro hempty
    unfold slugify at hempty
    by_cases he : (collapseRuns false
        ((pyStripL (x.data.filter keepSlugChar)).map Char.toLower)).isEmpty
    · simp only [he, if_true] at hempty
      exact absurd hempty (by decide)
    · simp only [he, if_false] at hempty
      have : (collapseRuns false
          ((pyStripL (x.data.filter keepSlugChar)).map Char.toLower)) = [] :=
        congrArg String.data hempty
      rw [this] at he
      exact he rfl

/-! ## `writer._extract_meta` and `writer._extract_social` -/

/-- Group 1 of the pattern `\s*(.+)` anchored at the input (Perl-style
greedy matching with backtracking, `.` not matching a newline): skip the
maximal whitespace run; if a character remains it starts the group,
which extends to the next newline; otherwise backtrack to the last
non-newline character of the whitespace run, which forms a one-character
group; fail if there is none. -/
def group1Dot (r : List Char) : Option (List Char) :=
  let rest := r.dropWhile isPySpace
  match rest with
  | _ :: _ => some (rest.takeWhile fun c => c != '\n')
  | [] =>
    match r.reverse.dropWhile (fun c => c == '\n') with
    | c :: _ => some [c]
    | [] => none

/-- The search `re.search(label + r"\s*(.+)", text)`, returning group 1: try every
start position from the left; at a position where the literal label
matches, the whole pattern matches iff `group1Dot` succeeds on the
remainder, otherwise the search continues one position further. -/
def searchLabel (label : List Char) : List Char → Option (List Char)
  | [] => none
  | c :: t =>
    if isPre label (c :: t) then
      match group1Dot ((c :: t).drop label.length) with
      | some g => some g
      | none => searchLabel label t
    else searchLabel label t

/-- The search `re.search(label + r"\s*(.*)", text, re.DOTALL)`, returning
group 1: at the first occurrence of the label the pattern always
matches, with group 1 the whole remainder after the maximal whitespace
run. -/
def searchLabelAll (label : List Char) : List Char → Option (List Char)
  | [] => none
  | c :: t =>
    if isPre label (c :: t) then
      some (((c :: t).drop label.length).dropWhile isPySpace)
    else searchLabelAll label t

/-- The split `re.split(r"[,;]", raw)`: split at every comma or semicolon. -/
def splitSep : List Char → List (List Char)
  | [] => [[]]
  | c :: t =>
    if c == ',' || c == ';' then [] :: splitSep t
    else
      match splitSep t with
      | g :: gs => (c :: g) :: gs
      | [] => [[c]]

/-- Method `ContentWriter._extract_meta`: keywords from the `SEO Keywords:`
line (split on `[,;]`, stripped, empty items dropped, first five kept)
and the stripped `Meta Description:` line. -/
def extract_meta (article : String) : List String × String :=
  let keywords : List String :=
    match searchLabel "SEO Keywords:".data article.data with
    | some raw =>
      (((splitSep raw).map pyStripL).filter fun i => !i.isEmpty).map
        fun i => (⟨i⟩ : String)
    | none => []
  let description : String :=
    match searchLabel "Meta Description:".data article.data with
    | some raw => ⟨pyStripL raw⟩
    | none => ""
  (keywords.take 5, description)

/-- Method `ContentWriter._extract_social`: everything after the first
`Social Snippets:` label, stripped; empty when the label is absent. -/
def extract_social (article : String) : String :=
  match searchLabelAll "Social Snippets:".data article.data with
  | some g => ⟨pyStripL g⟩
  | none => ""

/-! ### Search and scan lemmas for symbolic articles -/

theorem listContains_append_left {a n : List Char} (b : List Char)
    (h : listContains a n = true) : listContains (a ++ b) n = true := by
  induction a with
  | nil =>
    rw [listContains.eq_def] at h
    cases hp : isPre n [] with
    | false => rw [hp] at h; simp at h
    | true =>
      have hn : n = [] := by
        cases n with
        | nil => rfl
        | cons x xs => simp [isPre] at hp
      subst hn
      rw [listContains.eq_def]
      simp [isPre]
  | cons c t ih =>
    rw [listContains.eq_def] at h
    rw [listContains.eq_def]
    simp only [List.cons_append]
    cases hp : isPre n (c :: t) with
    | true =>
      have hp' : isPre n (c :: (t ++ b)) = true := by
        have h2 := isPre_append b hp
        rw [List.cons_append] at h2
        exact h2
      simp [hp']
    | false =>
      rw [hp] at h
      simp only [Bool.false_eq_true, if_false] at h
      cases hp2 : isPre n (c :: (t ++ b)) with
      | true => simp [hp2]
      | false =>
        simp only [hp2, Bool.false_eq_true, if_false]
        exact ih h

theorem listContains_false_of_head_ne {hay : List Char} {n0 : Char}
    (ns : List Char) (h : ∀ c ∈ hay, c ≠ n0) :
    listContains hay (n0 :: ns) = false := by
  induction hay with
  | nil => rfl
  | cons c t ih =>
    rw [listContains.eq_def]
    have hc : (n0 == c) = false := by
      have := h c (List.mem_cons_self _ _)
      simp [beq_iff_eq]
      exact fun he => this he.symm
    rw [show isPre (n0 :: ns) (c :: t) = false by simp [isPre, hc]]
    simp only [Bool.false_eq_true, if_false]
    exact ih fun c hc => h c (List.mem_cons_of_mem _ hc)

theorem isPre_self_append (l r : List Char) : isPre l (l ++ r) = true := by
  induction l with
  | nil => simp [isPre]
  | cons c t ih => simp [isPre, ih]

theorem searchLabel_skip (label : List Char) (l0 : Char)
    (hhd : label.head? = some l0) {a : List Char} (b : List Char)
    (h : ∀ c ∈ a, c ≠ l0) :
    searchLabel label (a ++ b) = searchLabel label b := by
  cases label with
  | nil => simp at hhd
  | cons x ls =>
    have hx : l0 = x := by
      have := hhd
      simp only [List.head?_cons, Option.some.injEq] at this
      exact this.symm
    induction a with
    | nil => rfl
    | cons c t ih =>
      rw [List.cons_append, searchLabel]
      have hc : (x == c) = false := by
        have hcl : c ≠ x := hx ▸ h c (List.mem_cons_self _ _)
        simp [beq_iff_eq]
        exact fun he => hcl he.symm
      rw [show isPre (x :: ls) (c :: (t ++ b)) = false by simp [isPre, hc]]
      simp only [Bool.false_eq_true, if_false]
      exact ih fun c hc => h c (List.mem_cons_of_mem _ hc)

theorem searchLabel_hit {label r g : List Char} (hne : label ≠ [])
    (hg : group1Dot r = some g) :
    searchLabel label (label ++ r) = some g := by
  cases label with
  | nil => exact absurd rfl hne
  | cons l0 ls =>
    rw [List.cons_append, searchLabel]
    rw [show isPre (l0 :: ls) (l0 :: (ls ++ r)) = true by
      have := isPre_self_append (l0 :: ls) r
      simpa using this]
    simp only [if_true]
    rw [show (l0 :: (ls ++ r)).drop (l0 :: ls).length = r by
      have h2 := List.drop_left (l0 :: ls) r
      rw [List.cons_append] at h2
      exact h2]
    rw [hg]

theorem takeWhile_append_all {p : Char → Bool} {a : List Char}
    (b : List Char) (h : ∀ c ∈ a, p c = true) :
    (a ++ b).takeWhile p = a ++ b.takeWhile p := by
  induction a with
  | nil => rfl
  | cons c t ih =>
    rw [List.cons_append, List.takeWhile_cons_of_pos
      (h c (List.mem_cons_self _ _)), List.cons_append,
      ih fun c hc => h c (List.mem_cons_of_mem _ hc)]

theorem dropWhile_eq_self_of_head {p : Char → Bool} {l : List Char}
    (h : ∀ c, l.head? = some c → p c = false) : l.dropWhile p = l := by
  cases l with
  | nil => rfl
  | cons a t =>
    rw [List.dropWhile_cons_of_neg]
    simp [h a rfl]

theorem pyStripL_eq_self {l : List Char}
    (hh : ∀ c, l.head? = some c → isPySpace c = false)
    (hl : ∀ c, l.getLast? = some c → isPySpace c = false) :
    pyStripL l = l := by
  unfold pyStripL
  rw [dropWhile_eq_self_of_head hh]
  rw [dropWhile_eq_self_of_head (by
    intro c hc
    rw [List.head?_reverse] at hc
    exact hl c hc)]
  exact List.reverse_reverse l

theorem pyStripL_cons_space (l : List Char) :
    pyStripL (' ' :: l) = pyStripL l := by
  unfold pyStripL
  rw [List.dropWhile_cons_of_pos (by decide)]

theorem splitSep_ne_nil (l : List Char) : splitSep l ≠ [] := by
  cases l with
  | nil => simp [splitSep]
  | cons c t =>
    rw [splitSep]
    split
    · simp
    · cases h : splitSep t <;> simp

theorem splitSep_append_comma {a : List Char} (r : List Char)
    (h : ∀ c ∈ a, (c == ',' || c == ';') = false) :
    splitSep (a ++ ',' :: r) = a :: splitSep r := by
  induction a with
  | nil => rw [List.nil_append, splitSep]; simp
  | cons c t ih =>
    rw [List.cons_append, splitSep]
    rw [show ((c == ',' || c == ';') = false) from
      h c (List.mem_cons_self _ _)]
    simp only [Bool.false_eq_true, if_false]
    rw [ih fun c hc => h c (List.mem_cons_of_mem _ hc)]

theorem splitSep_no_sep {a : List Char}
    (h : ∀ c ∈ a, (c == ',' || c == ';') = false) :
    splitSep a = [a] := by
  induction a with
  | nil => rfl
  | cons c t ih =>
    rw [splitSep]
    rw [show ((c == ',' || c == ';') = false) from
      h c (List.mem_cons_self _ _)]
    simp only [Bool.false_eq_true, if_false]
    rw [ih fun c hc => h c (List.mem_cons_of_mem _ hc)]

/-! ### The fabricated-claim scan needs a `%` character -/

theorem pctAfter_false {l : List Char} (h : ∀ c ∈ l, c ≠ '%') :
    pctAfter l = false := by
  induction l with
  | nil => rfl
  | cons b r ih =>
    rw [pctAfter]
    have hb : (b == '%') = false := by
      simpa [beq_iff_eq] using h b (List.mem_cons_self _ _)
    rw [hb]
    simp only [Bool.false_eq_true, if_false]
    split
    · exact ih fun c hc => h c (List.mem_cons_of_mem _ hc)
    · rfl

theorem digitsPct_false {l : List Char} (h : ∀ c ∈ l, c ≠ '%') :
    digitsPct l = false := by
  cases l with
  | nil => rfl
  | cons a r =>
    rw [digitsPct]
    rw [pctAfter_false fun c hc => h c (List.mem_cons_of_mem _ hc)]
    simp

theorem findPct_false {l : List Char} (h : ∀ c ∈ l, c ≠ '%') :
    findPct l = false := by
  induction l with
  | nil => rfl
  | cons c t ih =>
    rw [findPct]
    split
    · rfl
    · rw [digitsPct_false h, ih fun c hc => h c (List.mem_cons_of_mem _ hc)]
      rfl

theorem dropWord_subset {w s r : List Char} (h : dropWord w s = some r) :
    ∀ c ∈ r, c ∈ s := by
  induction w generalizing s with
  | nil =>
    rw [dropWord] at h
    cases h
    exact fun c hc => hc
  | cons a as ih =>
    cases s with
    | nil => simp [dropWord] at h
    | cons b bs =>
      rw [dropWord] at h
      split at h
      · exact fun c hc => List.mem_cons_of_mem _ (ih h c hc)
      · cases h

theorem findVerb_false {l : List Char} (h : ∀ c ∈ l, c ≠ '%') :
    ∀ prev, findVerb prev l = false := by
  induction l with
  | nil => exact fun _ => rfl
  | cons c t ih =>
    intro prev
    rw [findVerb]
    split
    · rfl
    · rw [ih (fun c hc => h c (List.mem_cons_of_mem _ hc)) (some c)]
      rw [show (claimVerbs.any fun w =>
          match dropWord w (c :: t) with
          | some rest => afterBoundary rest && findPct rest
          | none => false) = false by
        rw [List.any_eq_false]
        intro w _
        cases hd : dropWord w (c :: t) with
        | none => simp
        | some rest =>
          have hp := findPct_false fun c hc => h c (dropWord_subset hd c hc)
          simp [hp]]
      simp

theorem findBrand_false {l : List Char} (h : ∀ c ∈ l, c ≠ '%') :
    ∀ prev, findBrand prev l = false := by
  induction l with
  | nil => exact fun _ => rfl
  | cons c t ih =>
    intro prev
    rw [findBrand]
    rw [ih (fun c hc => h c (List.mem_cons_of_mem _ hc)) (some c)]
    rw [show (claimBrands.any fun w =>
        match dropWord w (c :: t) with
        | some rest => afterBoundary rest && findVerb w.getLast? rest
        | none => false) = false by
      rw [List.any_eq_false]
      intro w _
      cases hd : dropWord w (c :: t) with
      | none => simp
      | some rest =>
        have hv := findVerb_false
          (fun c hc => h c (dropWord_subset hd c hc)) w.getLast?
        simp [hv]]
    simp

theorem toLower_ne_of_ne_low {c d : Char}
    (hd : d.toNat < 97 ∨ 122 < d.toNat) (h : c ≠ d) : c.toLower ≠ d := by
  intro he
  by_cases hu : 65 ≤ c.toNat ∧ c.toNat ≤ 90
  · rw [Char.toLower, if_pos (by simpa [ge_iff_le] using hu)] at he
    have : (Char.ofNat (c.toNat + 32)).toNat = c.toNat + 32 :=
      char_toNat_ofNat (by omega)
    rw [he] at this
    omega
  · rw [toLower_eq_of_not_upper hu] at he
    exact h he

theorem fakeClaimSearch_false {s : String}
    (h : ∀ c ∈ s.data, c ≠ '%') : fakeClaimSearch s = false := by
  refine findBrand_false ?_ none
  intro c hc
  rcases List.mem_map.mp hc with ⟨d, hd, hdc⟩
  subst hdc
  exact toLower_ne_of_ne_low (Or.inl (by decide)) (h d hd)

/-! ### A complete article template -/

/-- The fixed concrete part of a complete article: all five required
headings, seven `## ` section markers and a bullet checklist. -/
def articleHeader : String :=
  "# Intro\n## Hook\nopening words\n## Context\nbackground\n" ++
  "## Prep\ndetails\n## Tools\ndetails\n## Habits\ndetails\n" ++
  "## What to do next\n- do this\n- do that\n## Conclusion\nwrap up\n"

/-- A complete article: the header followed by a five-term
`SEO Keywords:` line, a `Meta Description:` line and a
`Social Snippets:` section. -/
def completeArticle (k1 k2 k3 k4 k5 desc : String) : String :=
  articleHeader ++ "SEO Keywords:" ++ " " ++ k1 ++ "," ++ " " ++ k2 ++
  "," ++ " " ++ k3 ++ "," ++ " " ++ k4 ++ "," ++ " " ++ k5 ++ "\n" ++
  "Meta Description:" ++ " " ++ desc ++ "\n" ++
  "Social Snippets:\nlinkedin tip\n"

/-- A keyword term (or description) of the template: non-empty, made of
lowercase letters and spaces, and not starting or ending with a
space. -/
def goodTerm (s : String) : Bool :=
  !s.data.isEmpty &&
  s.data.all (fun c => c.isLower || c == ' ') &&
  s.data.head?.all (fun c => c != ' ') &&
  s.data.getLast?.all (fun c => c != ' ')

theorem termChar_cases {c : Char} (h : (c.isLower || c == ' ') = true) :
    c.toNat = 32 ∨ (97 ≤ c.toNat ∧ c.toNat ≤ 122) := by
  rcases Bool.or_eq_true _ _ |>.mp h with h | h
  · rw [isLower_iff] at h
    exact Or.inr h
  · rw [beq_iff_eq] at h
    subst h
    exact Or.inl (by decide)

theorem termChar_ne {c d : Char} (h : (c.isLower || c == ' ') = true)
    (hd : d.toNat ≠ 32 ∧ (d.toNat < 97 ∨ 122 < d.toNat)) : c ≠ d := by
  intro he
  subst he
  rcases termChar_cases h with h' | h' <;> omega

theorem termChar_not_space_pySpace {c : Char}
    (h : (c.isLower || c == ' ') = true) (hs : c ≠ ' ') :
    isPySpace c = false := by
  rcases Bool.or_eq_true _ _ |>.mp h with h | h
  · exact not_pySpace_of_slugChar (by simp [slugChar, h])
  · rw [beq_iff_eq] at h
    exact absurd h hs

theorem goodTerm_facts {s : String} (h : goodTerm s = true) :
    s.data ≠ [] ∧ (∀ c ∈ s.data, (c.isLower || c == ' ') = true) ∧
    (∀ c, s.data.head? = some c → isPySpace c = false) ∧
    (∀ c, s.data.getLast? = some c → isPySpace c = false) := by
  simp only [goodTerm, Bool.and_eq_true, Bool.not_eq_true',
    List.all_eq_true] at h
  obtain ⟨⟨⟨hne, hall⟩, hhd⟩, hlast⟩ := h
  have hne' : s.data ≠ [] := by
    intro hEq
    rw [hEq] at hne
    simp at hne
  refine ⟨hne', hall, ?_, ?_⟩
  · intro c hc
    rw [hc] at hhd
    simp only [Option.all_some, bne_iff_ne, ne_eq, decide_eq_true_eq] at hhd
    exact termChar_not_space_pySpace
      (hall c (List.mem_of_mem_head? (by rw [hc]; exact rfl))) hhd
  · intro c hc
    rw [hc] at hlast
    simp only [Option.all_some, bne_iff_ne, ne_eq, decide_eq_true_eq] at hlast
    exact termChar_not_space_pySpace
      (hall c (List.mem_of_getLast?_eq_some hc)) hlast

theorem head?_append_of_ne {l r : List Char} {c : Char}
    (h : l.head? = some c) : (l ++ r).head? = some c := by
  cases l with
  | nil => simp at h
  | cons a t => simpa using h

theorem group1Dot_shape {l r : List Char} (hne : l ≠ [])
    (hh : ∀ c, l.head? = some c → isPySpace c = false)
    (hnl : ∀ c ∈ l, (c != '\n') = true) :
    group1Dot (' ' :: (l ++ ('\n' :: r))) = some l := by
  cases l with
  | nil => exact absurd rfl hne
  | cons a t =>
    have ha : isPySpace a = false := hh a rfl
    unfold group1Dot
    rw [List.dropWhile_cons_of_pos (by decide), List.cons_append,
      List.dropWhile_cons_of_neg (by simp [ha])]
    simp only []
    rw [show (a :: (t ++ ('\n' :: r))) = (a :: t) ++ ('\n' :: r) from by simp]
    rw [takeWhile_append_all _ hnl]
    rw [List.takeWhile_cons_of_neg (by decide)]
    simp

/-- Right-associated character-level form of `completeArticle`. -/
theorem completeArticle_data (k1 k2 k3 k4 k5 desc : String) :
    (completeArticle k1 k2 k3 k4 k5 desc).data =
      articleHeader.data ++ ("SEO Keywords:".data ++ (' ' :: (k1.data ++
      (',' :: (' ' :: (k2.data ++ (',' :: (' ' :: (k3.data ++ (',' ::
      (' ' :: (k4.data ++ (',' :: (' ' :: (k5.data ++ ('\n' ::
      ("Meta Description:".data ++ (' ' :: (desc.data ++ ('\n' ::
      ("Social Snippets:\nlinkedin tip\n" : String).data)))))))))))))))))))) := by
  simp only [completeArticle, String.data_append, List.append_assoc,
    (show (" " : String).data = [' '] from rfl),
    (show ("," : String).data = [','] from rfl),
    (show ("\n" : String).data = ['\n'] from rfl),
    List.cons_append, List.singleton_append, List.nil_append]

theorem termChar_not_sep {c : Char} (h : (c.isLower || c == ' ') = true) :
    (c == ',' || c == ';') = false := by
  have hc1 : c ≠ ',' := termChar_ne h (by decide)
  have hc2 : c ≠ ';' := termChar_ne h (by decide)
  simp [beq_iff_eq, hc1, hc2]

theorem termChar_ne_nl {c : Char} (h : (c.isLower || c == ' ') = true) :
    (c != '\n') = true := by
  have := termChar_ne h (d := '\n') (by decide)
  simpa [bne_iff_ne] using this

theorem completeArticle_safe {k1 k2 k3 k4 k5 desc : String}
    (k1all : ∀ c ∈ k1.data, (c.isLower || c == ' ') = true)
    (k2all : ∀ c ∈ k2.data, (c.isLower || c == ' ') = true)
    (k3all : ∀ c ∈ k3.data, (c.isLower || c == ' ') = true)
    (k4all : ∀ c ∈ k4.data, (c.isLower || c == ' ') = true)
    (k5all : ∀ c ∈ k5.data, (c.isLower || c == ' ') = true)
    (dall : ∀ c ∈ desc.data, (c.isLower || c == ' ') = true) :
    ∀ c ∈ (completeArticle k1 k2 k3 k4 k5 desc).data,
      c ≠ '%' ∧ c ≠ Char.ofNat 0xE2 := by
  rw [completeArticle_data]
  have hA : ∀ c ∈ articleHeader.data,
      c ≠ '%' ∧ c ≠ Char.ofNat 0xE2 := by decide
  have hB : ∀ c ∈ ("SEO Keywords:" : String).data,
      c ≠ '%' ∧ c ≠ Char.ofNat 0xE2 := by decide
  have hC : ∀ c ∈ ("Meta Description:" : String).data,
      c ≠ '%' ∧ c ≠ Char.ofNat 0xE2 := by decide
  have hD : ∀ c ∈ ("Social Snippets:\nlinkedin tip\n" : String).data,
      c ≠ '%' ∧ c ≠ Char.ofNat 0xE2 := by decide
  have hpct : ∀ {c : Char}, (c.isLower || c == ' ') = true →
      c ≠ '%' ∧ c ≠ Char.ofNat 0xE2 :=
    fun hc => ⟨termChar_ne hc (by decide), termChar_ne hc (by decide)⟩
  have hk1 : ∀ c ∈ k1.data, c ≠ '%' ∧ c ≠ Char.ofNat 0xE2 :=
    fun c h => hpct (k1all c h)
  have hk2 : ∀ c ∈ k2.data, c ≠ '%' ∧ c ≠ Char.ofNat 0xE2 :=
    fun c h => hpct (k2all c h)
  have hk3 : ∀ c ∈ k3.data, c ≠ '%' ∧ c ≠ Char.ofNat 0xE2 :=
    fun c h => hpct (k3all c h)
  have hk4 : ∀ c ∈ k4.data, c ≠ '%' ∧ c ≠ Char.ofNat 0xE2 :=
    fun c h => hpct (k4all c h)
  have hk5 : ∀ c ∈ k5.data, c ≠ '%' ∧ c ≠ Char.ofNat 0xE2 :=
    fun c h => hpct (k5all c h)
  have hdd : ∀ c ∈ desc.data, c ≠ '%' ∧ c ≠ Char.ofNat 0xE2 :=
    fun c h => hpct (dall c h)
  have hone : ∀ x : Char, x ≠ '%' → x ≠ Char.ofNat 0xE2 →
      x ≠ '%' ∧ x ≠ Char.ofNat 0xE2 := fun _ a b => ⟨a, b⟩
  exact List.forall_mem_append.mpr ⟨hA,
    List.forall_mem_append.mpr ⟨hB,
    List.forall_mem_cons.mpr ⟨hone _ (by decide) (by decide),
    List.forall_mem_append.mpr ⟨hk1,
    List.forall_mem_cons.mpr ⟨hone _ (by decide) (by decide),
    List.forall_mem_cons.mpr ⟨hone _ (by decide) (by decide),
    List.forall_mem_append.mpr ⟨hk2,
    List.forall_mem_cons.mpr ⟨hone _ (by decide) (by decide),
    List.forall_mem_cons.mpr ⟨hone _ (by decide) (by decide),
    List.forall_mem_append.mpr ⟨hk3,
    List.forall_mem_cons.mpr ⟨hone _ (by decide) (by decide),
    List.forall_mem_cons.mpr ⟨hone _ (by decide) (by decide),
    List.forall_mem_append.mpr ⟨hk4,
    List.forall_mem_cons.mpr ⟨hone _ (by decide) (by decide),
    List.forall_mem_cons.mpr ⟨hone _ (by decide) (by decide),
    List.forall_mem_append.mpr ⟨hk5,
    List.forall_mem_cons.mpr ⟨hone _ (by decide) (by decide),
    List.forall_mem_append.mpr ⟨hC,
    List.forall_mem_cons.mpr ⟨hone _ (by decide) (by decide),
    List.forall_mem_append.mpr ⟨hdd,
    List.forall_mem_cons.mpr ⟨hone _ (by decide) (by decide),
    hD⟩⟩⟩⟩⟩⟩⟩⟩⟩⟩⟩⟩⟩⟩⟩⟩⟩⟩⟩⟩⟩

theorem completeArticle_self_check {k1 k2 k3 k4 k5 desc : String}
    (hsafe : ∀ c ∈ (completeArticle k1 k2 k3 k4 k5 desc).data,
      c ≠ '%' ∧ c ≠ Char.ofNat 0xE2) :
    self_check (completeArticle k1 k2 k3 k4 k5 desc) = [] := by
  have hHead : ∀ n : String, listContains articleHeader.data n.data = true →
      containsSub (completeArticle k1 k2 k3 k4 k5 desc) n = true := by
    intro n hn
    unfold containsSub
    rw [completeArticle_data]
    exact listContains_append_left _ hn
  have hh1 : containsSub (completeArticle k1 k2 k3 k4 k5 desc) "# " = true :=
    hHead _ (by decide)
  have hh2 : containsSub (completeArticle k1 k2 k3 k4 k5 desc)
      "## Hook" = true := hHead _ (by decide)
  have hh3 : containsSub (completeArticle k1 k2 k3 k4 k5 desc)
      "## Context" = true := hHead _ (by decide)
  have hh4 : containsSub (completeArticle k1 k2 k3 k4 k5 desc)
      "## What to do next" = true := hHead _ (by decide)
  have hh5 : containsSub (completeArticle k1 k2 k3 k4 k5 desc)
      "## Conclusion" = true := hHead _ (by decide)
  have hdsh : containsSub (completeArticle k1 k2 k3 k4 k5 desc)
      "- " = true := hHead _ (by decide)
  have hcnt : ¬ countSub "## ".data
      (completeArticle k1 k2 k3 k4 k5 desc).data < 6 := by
    rw [completeArticle_data]
    have h7 : countSub "## ".data articleHeader.data = 7 := by decide
    have hle := countSub_le_append "## ".data articleHeader.data
      ("SEO Keywords:".data ++ (' ' :: (k1.data ++ (',' :: (' ' :: (k2.data ++ (',' :: (' ' :: (k3.data ++ (',' :: (' ' :: (k4.data ++ (',' :: (' ' :: (k5.data ++ ('\n' :: ("Meta Description:".data ++ (' ' :: (desc.data ++ ('\n' :: ("Social Snippets:\nlinkedin tip\n" : String).data))))))))))))))))))))
    omega
  have hmoji : containsSub (completeArticle k1 k2 k3 k4 k5 desc)
      mojiDash = false := by
    unfold containsSub
    rw [show mojiDash.data =
      Char.ofNat 0xE2 :: [Char.ofNat 0x20AC, Char.ofNat 0x201D] from rfl]
    exact listContains_false_of_head_ne _ fun c hc => (hsafe c hc).2
  have hfake : fakeClaimSearch (completeArticle k1 k2 k3 k4 k5 desc) = false :=
    fakeClaimSearch_false fun c hc => (hsafe c hc).1
  unfold self_check
  rw [hmoji, hfake, if_neg hcnt]
  simp only [REQUIRED_HEADINGS, List.filterMap_cons, List.filterMap_nil,
    hh1, hh2, hh3, hh4, hh5, hdsh]
  simp

theorem completeArticle_kw_search {k1 k2 k3 k4 k5 desc : String}
    (k1ne : k1.data ≠ [])
    (k1hd : ∀ c, k1.data.head? = some c → isPySpace c = false)
    (k1all : ∀ c ∈ k1.data, (c.isLower || c == ' ') = true)
    (k2all : ∀ c ∈ k2.data, (c.isLower || c == ' ') = true)
    (k3all : ∀ c ∈ k3.data, (c.isLower || c == ' ') = true)
    (k4all : ∀ c ∈ k4.data, (c.isLower || c == ' ') = true)
    (k5all : ∀ c ∈ k5.data, (c.isLower || c == ' ') = true) :
    searchLabel "SEO Keywords:".data
      (completeArticle k1 k2 k3 k4 k5 desc).data =
    some (k1.data ++ (',' :: (' ' :: (k2.data ++ (',' :: (' ' :: (k3.data ++ (',' :: (' ' :: (k4.data ++ (',' :: (' ' :: k5.data)))))))))))) := by
  have hKWSassoc :
      (k1.data ++ (',' :: (' ' :: (k2.data ++ (',' :: (' ' :: (k3.data ++ (',' :: (' ' :: (k4.data ++ (',' :: (' ' :: (k5.data ++ ('\n' :: ("Meta Description:".data ++ (' ' :: (desc.data ++ ('\n' :: ("Social Snippets:\nlinkedin tip\n" : String).data)))))))))))))))))) =
      (k1.data ++ (',' :: (' ' :: (k2.data ++ (',' :: (' ' :: (k3.data ++ (',' :: (' ' :: (k4.data ++ (',' :: (' ' :: k5.data)))))))))))) ++ ('\n' :: ("Meta Description:".data ++ (' ' :: (desc.data ++ ('\n' :: ("Social Snippets:\nlinkedin tip\n" : String).data))))) := by
    simp [List.append_assoc]
  have hne : (k1.data ++ (',' :: (' ' :: (k2.data ++ (',' :: (' ' :: (k3.data ++ (',' :: (' ' :: (k4.data ++ (',' :: (' ' :: k5.data)))))))))))) ≠ [] := by
    intro habs
    exact k1ne (List.append_eq_nil.mp habs).1
  have hh : ∀ c, ((k1.data ++ (',' :: (' ' :: (k2.data ++ (',' :: (' ' :: (k3.data ++ (',' :: (' ' :: (k4.data ++ (',' :: (' ' :: k5.data))))))))))))).head? = some c → isPySpace c = false := by
    intro c hc
    cases hk : k1.data with
    | nil => exact absurd hk k1ne
    | cons a t =>
      rw [hk, List.cons_append, List.head?_cons, Option.some.injEq] at hc
      exact hc ▸ k1hd a (by rw [hk]; rfl)
  have hnl : ∀ c ∈ (k1.data ++ (',' :: (' ' :: (k2.data ++ (',' :: (' ' :: (k3.data ++ (',' :: (' ' :: (k4.data ++ (',' :: (' ' :: k5.data)))))))))))), (c != '\n') = true := by
    refine List.forall_mem_append.mpr ⟨fun c h => termChar_ne_nl (k1all c h),
      List.forall_mem_cons.mpr ⟨by decide,
      List.forall_mem_cons.mpr ⟨by decide,
      List.forall_mem_append.mpr ⟨fun c h => termChar_ne_nl (k2all c h),
      List.forall_mem_cons.mpr ⟨by decide,
      List.forall_mem_cons.mpr ⟨by decide,
      List.forall_mem_append.mpr ⟨fun c h => termChar_ne_nl (k3all c h),
      List.forall_mem_cons.mpr ⟨by decide,
      List.forall_mem_cons.mpr ⟨by decide,
      List.forall_mem_append.mpr ⟨fun c h => termChar_ne_nl (k4all c h),
      List.forall_mem_cons.mpr ⟨by decide,
      List.forall_mem_cons.mpr ⟨by decide,
      fun c h => termChar_ne_nl (k5all c h)⟩⟩⟩⟩⟩⟩⟩⟩⟩⟩⟩⟩
  have hg : group1Dot (' ' :: (k1.data ++ (',' :: (' ' :: (k2.data ++ (',' :: (' ' :: (k3.data ++ (',' :: (' ' :: (k4.data ++ (',' :: (' ' :: (k5.data ++ ('\n' :: ("Meta Description:".data ++ (' ' :: (desc.data ++ ('\n' :: ("Social Snippets:\nlinkedin tip\n" : String).data))))))))))))))))))) =
      some (k1.data ++ (',' :: (' ' :: (k2.data ++ (',' :: (' ' :: (k3.data ++ (',' :: (' ' :: (k4.data ++ (',' :: (' ' :: k5.data)))))))))))) := by
    rw [hKWSassoc]
    exact group1Dot_shape hne hh hnl
  rw [completeArticle_data]
  rw [searchLabel_skip "SEO Keywords:".data 'S' (by decide) _ (by decide)]
  exact searchLabel_hit (by decide) hg

theorem completeArticle_meta_search {k1 k2 k3 k4 k5 desc : String}
    (k1all : ∀ c ∈ k1.data, (c.isLower || c == ' ') = true)
    (k2all : ∀ c ∈ k2.data, (c.isLower || c == ' ') = true)
    (k3all : ∀ c ∈ k3.data, (c.isLower || c == ' ') = true)
    (k4all : ∀ c ∈ k4.data, (c.isLower || c == ' ') = true)
    (k5all : ∀ c ∈ k5.data, (c.isLower || c == ' ') = true)
    (dne : desc.data ≠ [])
    (dhd : ∀ c, desc.data.head? = some c → isPySpace c = false)
    (dall : ∀ c ∈ desc.data, (c.isLower || c == ' ') = true) :
    searchLabel "Meta Description:".data
      (completeArticle k1 k2 k3 k4 k5 desc).data = some desc.data := by
  have hM : ∀ {c : Char}, (c.isLower || c == ' ') = true → c ≠ 'M' :=
    fun hc => termChar_ne hc (by decide)
  have hMfree : ∀ c ∈ (articleHeader.data ++ ("SEO Keywords:".data ++ (' ' :: (k1.data ++ (',' :: (' ' :: (k2.data ++ (',' :: (' ' :: (k3.data ++ (',' :: (' ' :: (k4.data ++ (',' :: (' ' :: (k5.data ++ ['\n'])))))))))))))))), c ≠ 'M' := by
    refine List.forall_mem_append.mpr ⟨by decide,
      List.forall_mem_append.mpr ⟨by decide,
      List.forall_mem_cons.mpr ⟨by decide,
      List.forall_mem_append.mpr ⟨fun c h => hM (k1all c h),
      List.forall_mem_cons.mpr ⟨by decide,
      List.forall_mem_cons.mpr ⟨by decide,
      List.forall_mem_append.mpr ⟨fun c h => hM (k2all c h),
      List.forall_mem_cons.mpr ⟨by decide,
      List.forall_mem_cons.mpr ⟨by decide,
      List.forall_mem_append.mpr ⟨fun c h => hM (k3all c h),
      List.forall_mem_cons.mpr ⟨by decide,
      List.forall_mem_cons.mpr ⟨by decide,
      List.forall_mem_append.mpr ⟨fun c h => hM (k4all c h),
      List.forall_mem_cons.mpr ⟨by decide,
      List.forall_mem_cons.mpr ⟨by decide,
      List.forall_mem_append.mpr ⟨fun c h => hM (k5all c h),
      by decide⟩⟩⟩⟩⟩⟩⟩⟩⟩⟩⟩⟩⟩⟩⟩⟩
  have hdnl : ∀ c ∈ desc.data, (c != '\n') = true :=
    fun c h => termChar_ne_nl (dall c h)
  have hassoc : (completeArticle k1 k2 k3 k4 k5 desc).data =
      (articleHeader.data ++ ("SEO Keywords:".data ++ (' ' :: (k1.data ++ (',' :: (' ' :: (k2.data ++ (',' :: (' ' :: (k3.data ++ (',' :: (' ' :: (k4.data ++ (',' :: (' ' :: (k5.data ++ ['\n'])))))))))))))))) ++ ("Meta Description:".data ++ (' ' :: (desc.data ++ ('\n' :: ("Social Snippets:\nlinkedin tip\n" : String).data)))) := by
    rw [completeArticle_data]
    simp [List.append_assoc]
  rw [hassoc]
  rw [searchLabel_skip "Meta Description:".data 'M' (by decide) _ hMfree]
  exact searchLabel_hit (by decide) (group1Dot_shape dne dhd hdnl)

theorem completeArticle_extract {k1 k2 k3 k4 k5 desc : String}
    (h1 : goodTerm k1 = true) (h2 : goodTerm k2 = true)
    (h3 : goodTerm k3 = true) (h4 : goodTerm k4 = true)
    (h5 : goodTerm k5 = true) (hd6 : goodTerm desc = true) :
    extract_meta (completeArticle k1 k2 k3 k4 k5 desc) =
      ([k1, k2, k3, k4, k5], desc) := by
  obtain ⟨k1ne, k1all, k1hd, k1last⟩ := goodTerm_facts h1
  obtain ⟨k2ne, k2all, k2hd, k2last⟩ := goodTerm_facts h2
  obtain ⟨k3ne, k3all, k3hd, k3last⟩ := goodTerm_facts h3
  obtain ⟨k4ne, k4all, k4hd, k4last⟩ := goodTerm_facts h4
  obtain ⟨k5ne, k5all, k5hd, k5last⟩ := goodTerm_facts h5
  obtain ⟨dne, dall, dhd, dlast⟩ := goodTerm_facts hd6
  have hsep1 : ∀ c ∈ k1.data, (c == ',' || c == ';') = false :=
    fun c h => termChar_not_sep (k1all c h)
  have hsep2 : ∀ c ∈ (' ' :: k2.data), (c == ',' || c == ';') = false :=
    List.forall_mem_cons.mpr ⟨by decide, fun c h => termChar_not_sep (k2all c h)⟩
  have hsep3 : ∀ c ∈ (' ' :: k3.data), (c == ',' || c == ';') = false :=
    List.forall_mem_cons.mpr ⟨by decide, fun c h => termChar_not_sep (k3all c h)⟩
  have hsep4 : ∀ c ∈ (' ' :: k4.data), (c == ',' || c == ';') = false :=
    List.forall_mem_cons.mpr ⟨by decide, fun c h => termChar_not_sep (k4all c h)⟩
  have hsep5 : ∀ c ∈ (' ' :: k5.data), (c == ',' || c == ';') = false :=
    List.forall_mem_cons.mpr ⟨by decide, fun c h => termChar_not_sep (k5all c h)⟩
  have hsplit : splitSep (k1.data ++ (',' :: (' ' :: (k2.data ++ (',' :: (' ' :: (k3.data ++ (',' :: (' ' :: (k4.data ++ (',' :: (' ' :: k5.data)))))))))))) =
      [k1.data, ' ' :: k2.data, ' ' :: k3.data, ' ' :: k4.data,
        ' ' :: k5.data] := by
    rw [splitSep_append_comma _ hsep1]
    rw [show (' ' :: (k2.data ++ (',' :: (' ' :: (k3.data ++ (',' :: (' ' :: (k4.data ++ (',' :: (' ' :: k5.data))))))))))
        = (' ' :: k2.data) ++ (',' :: (' ' :: (k3.data ++ (',' :: (' ' :: (k4.data ++ (',' :: (' ' :: k5.data)))))))) from by simp]
    rw [splitSep_append_comma _ hsep2]
    rw [show (' ' :: (k3.data ++ (',' :: (' ' :: (k4.data ++ (',' :: (' ' :: k5.data)))))))
        = (' ' :: k3.data) ++ (',' :: (' ' :: (k4.data ++ (',' :: (' ' :: k5.data))))) from by simp]
    rw [splitSep_append_comma _ hsep3]
    rw [show (' ' :: (k4.data ++ (',' :: (' ' :: k5.data))))
        = (' ' :: k4.data) ++ (',' :: (' ' :: k5.data)) from by simp]
    rw [splitSep_append_comma _ hsep4]
    rw [splitSep_no_sep hsep5]
  have hemp : ∀ {s : String}, s.data ≠ [] → (!s.data.isEmpty) = true := by
    intro s hs
    cases hk : s.data with
    | nil => exact absurd hk hs
    | cons a t => rfl
  unfold extract_meta
  rw [completeArticle_kw_search k1ne k1hd k1all k2all k3all k4all k5all,
    completeArticle_meta_search k1all k2all k3all k4all k5all dne dhd dall]
  simp only []
  rw [hsplit]
  simp only [List.map_cons, List.map_nil]
  rw [pyStripL_cons_space, pyStripL_cons_space, pyStripL_cons_space,
    pyStripL_cons_space,
    pyStripL_eq_self k1hd k1last, pyStripL_eq_self k2hd k2last,
    pyStripL_eq_self k3hd k3last, pyStripL_eq_self k4hd k4last,
    pyStripL_eq_self k5hd k5last, pyStripL_eq_self dhd dlast]
  simp only [List.filter_cons, hemp k1ne, hemp k2ne, hemp k3ne,
    hemp k4ne, hemp k5ne, if_true, List.filter_nil]
  rfl

/--
**C6 (amended).** The claim as frozen quantifies over every article
containing the listed features, but such an article may additionally
contain the banned punctuation sequence or a line matching the
fabricated-claim pattern, making `self_check` non-empty
(see the counterexample theorem).  Amended to the complete-article
form: for every article of the fixed complete-article shape — the
template with all five required headings, seven `## ` markers and a
bullet checklist, whose five keyword terms and 155-character meta
description are non-empty strings of lowercase letters and interior
spaces — `self_check` returns the empty error list and `_extract_meta`
returns exactly those five trimmed keywords and that exact trimmed
description.
-/
theorem claim_C6_complete_article (k1 k2 k3 k4 k5 desc : String)
    (h1 : goodTerm k1 = true) (h2 : goodTerm k2 = true)
    (h3 : goodTerm k3 = true) (h4 : goodTerm k4 = true)
    (h5 : goodTerm k5 = true) (hd6 : goodTerm desc = true)
    (_hlen : desc.data.length = 155) :
    self_check (completeArticle k1 k2 k3 k4 k5 desc) = [] ∧
    extract_meta (completeArticle k1 k2 k3 k4 k5 desc) =
      ([k1, k2, k3, k4, k5], desc) := by
  obtain ⟨_, k1all, _, _⟩ := goodTerm_facts h1
  obtain ⟨_, k2all, _, _⟩ := goodTerm_facts h2
  obtain ⟨_, k3all, _, _⟩ := goodTerm_facts h3
  obtain ⟨_, k4all, _, _⟩ := goodTerm_facts h4
  obtain ⟨_, k5all, _, _⟩ := goodTerm_facts h5
  obtain ⟨_, dall, _, _⟩ := goodTerm_facts hd6
  exact ⟨completeArticle_self_check
      (completeArticle_safe k1all k2all k3all k4all k5all dall),
    completeArticle_extract h1 h2 h3 h4 h5 hd6⟩

/-- Closed witness for the amended C6 theorem at concrete inputs. -/
theorem claim_C6_complete_article_witness :
    goodTerm "growth" = true ∧ goodTerm "systems" = true ∧
    goodTerm "automation" = true ∧ goodTerm "crm flows" = true ∧
    goodTerm "operations" = true ∧
    goodTerm (⟨List.replicate 155 'a'⟩ : String) = true ∧
    ((⟨List.replicate 155 'a'⟩ : String)).data.length = 155 ∧
    self_check (completeArticle "growth" "systems" "automation"
      "crm flows" "operations" ⟨List.replicate 155 'a'⟩) = [] ∧
    extract_meta (completeArticle "growth" "systems" "automation"
      "crm flows" "operations" ⟨List.replicate 155 'a'⟩) =
      (["growth", "systems", "automation", "crm flows", "operations"],
        ⟨List.replicate 155 'a'⟩) := by
  have h := claim_C6_complete_article "growth" "systems" "automation"
    "crm flows" "operations" ⟨List.replicate 155 'a'⟩
    (by decide) (by decide) (by decide) (by decide) (by decide)
    (by decide) (by decide)
  exact ⟨by decide, by decide, by decide, by decide, by decide,
    by decide, by decide, h.1, h.2⟩

/-- A feature-complete article that also contains a fabricated-claim
line, refuting C6 as literally stated. -/
def c6Bad : String :=
  completeArticle "alpha" "beta" "gamma" "delta" "epsilon"
    ⟨List.replicate 155 'a'⟩ ++ "we increased revenue by 40%\n"

/--
**C6 (counterexample).** `c6Bad` contains all five required headings,
seven `## ` markers, a bullet checklist, a `SEO Keywords:` line with
exactly five comma-separated terms, a 155-character `Meta Description:`
line and a `Social Snippets:` section — yet `self_check` returns a
non-empty error list (the fabricated-percentage-claim error), refuting
the claim's universal statement.
-/
theorem claim_C6_counterexample :
    containsSub c6Bad "# " = true ∧
    containsSub c6Bad "## Hook" = true ∧
    containsSub c6Bad "## Context" = true ∧
    containsSub c6Bad "## What to do next" = true ∧
    containsSub c6Bad "## Conclusion" = true ∧
    7 ≤ countSub "## ".data c6Bad.data ∧
    containsSub c6Bad "- " = true ∧
    extract_meta c6Bad =
      (["alpha", "beta", "gamma", "delta", "epsilon"],
        ⟨List.replicate 155 'a'⟩) ∧
    containsSub c6Bad "Social Snippets:" = true ∧
    self_check c6Bad = ["Potential fabricated percentage claim."] := by
  refine ⟨by decide, by decide, by decide, by decide, by decide,
    by decide, by decide, by decide, by decide, by decide⟩

/-! ## JSON model (`json.loads` and `topics.generate_topics`) -/

/-- Python JSON values.  Number lexemes are kept as text: the claims
only depend on parse success/failure, dictionary shape and truthiness,
never on numeric values. -/
inductive Json where
  | null : Json
  | bool : Bool → Json
  | num : String → Json
  | str : String → Json
  | arr : List Json → Json
  | obj : List (String × Json) → Json

/-- JSON whitespace accepted by `json.loads`. -/
def jsonWs (c : Char) : Bool :=
  c == ' ' || c == '\t' || c == '\n' || c == '\r'

/-- Skip JSON whitespace. -/
def skipJWs (s : List Char) : List Char := s.dropWhile jsonWs

/-- A hexadecimal digit's value. -/
def hexVal (c : Char) : Option Nat :=
  if c.isDigit then some (c.toNat - 48)
  else if 'a' ≤ c && c ≤ 'f' then some (c.toNat - 87)
  else if 'A' ≤ c && c ≤ 'F' then some (c.toNat - 55)
  else none

/-- Single-character string escapes. -/
def escChar (e : Char) : Option Char :=
  if e == '"' then some '"'
  else if e == '\\' then some '\\'
  else if e == '/' then some '/'
  else if e == 'b' then some (Char.ofNat 8)
  else if e == 'f' then some (Char.ofNat 12)
  else if e == 'n' then some '\n'
  else if e == 'r' then some '\r'
  else if e == 't' then some '\t'
  else none

/-- Parse the body of a JSON string after the opening quote, returning
the content and the rest of the input after the closing quote.
(Python permits lone surrogates in `\u` escapes, which `Char` cannot
represent; such a code unit is modelled as `'\0'` — only parse
success/failure matters to the claims.) -/
def parseJString : List Char → Option (List Char × List Char)
  | [] => none
  | '"' :: t => some ([], t)
  | '\\' :: e :: t2 =>
    if e == 'u' then
      match t2 with
      | h1 :: h2 :: h3 :: h4 :: t3 =>
        match hexVal h1, hexVal h2, hexVal h3, hexVal h4 with
        | some a, some b, some c, some d =>
          (parseJString t3).map fun p =>
            (Char.ofNat (((a * 16 + b) * 16 + c) * 16 + d) :: p.1, p.2)
        | _, _, _, _ => none
      | _ => none
    else
      match escChar e with
      | some ch => (parseJString t2).map fun p => (ch :: p.1, p.2)
      | none => none
  | c :: t =>
    if c.toNat < 0x20 then none
    else (parseJString t).map fun p => (c :: p.1, p.2)

/-- The exponent part of a number lexeme (or nothing). -/
def parseExp (lex s : List Char) : Option (List Char × List Char) :=
  match s with
  | e :: t =>
    if e == 'e' || e == 'E' then
      let (sgn, t2) :=
        match t with
        | '+' :: r => (['+'], r)
        | '-' :: r => (['-'], r)
        | _ => ([], t)
      let ed := t2.takeWhile Char.isDigit
      if ed.isEmpty then none
      else some (lex ++ e :: (sgn ++ ed), t2.dropWhile Char.isDigit)
    else some (lex, s)
  | [] => some (lex, [])

/-- The fraction and exponent parts after the integer part. -/
def parseFrac (lex s : List Char) : Option (List Char × List Char) :=
  match s with
  | '.' :: t =>
    let fd := t.takeWhile Char.isDigit
    if fd.isEmpty then none
    else parseExp (lex ++ '.' :: fd) (t.dropWhile Char.isDigit)
  | _ => parseExp lex s

/-- A JSON number lexeme (strict grammar, plus Python's `Infinity` and
`-Infinity` extensions; `NaN` is handled by the value parser). -/
def parseNumber (s : List Char) : Option (List Char × List Char) :=
  let (neg, s1) :=
    match s with
    | '-' :: t => (['-'], t)
    | _ => ([], s)
  if isPre "Infinity".data s1 then
    some (neg ++ "Infinity".data, s1.drop 8)
  else
    match s1 with
    | '0' :: t => parseFrac (neg ++ ['0']) t
    | c :: t =>
      if c.isDigit then
        parseFrac (neg ++ c :: t.takeWhile Char.isDigit)
          (t.dropWhile Char.isDigit)
      else none
    | [] => none

/-- Python `dict` insertion: replace an existing key, else append. -/
def dictInsert (kvs : List (String × Json)) (k : String) (v : Json) :
    List (String × Json) :=
  if kvs.any (fun p => p.1 == k) then
    kvs.map fun p => if p.1 == k then (k, v) else p
  else kvs ++ [(k, v)]

/-- Fold parsed members into a Python dict (later keys overwrite). -/
def buildDict (kvs : List (String × Json)) : List (String × Json) :=
  kvs.foldl (fun acc p => dictInsert acc p.1 p.2) []

mutual

/-- Parse one JSON value (fuel-bounded recursion; the fuel passed by
`json_loads` is generous enough for every input). -/
def parseValue : Nat → List Char → Option (Json × List Char)
  | 0, _ => none
  | fuel + 1, s =>
    match skipJWs s with
    | [] => none
    | c :: t =>
      if c == '{' then
        match skipJWs t with
        | '}' :: r => some (Json.obj [], r)
        | s2 =>
          match parseMembers fuel s2 with
          | some (kvs, rest) => some (Json.obj (buildDict kvs), rest)
          | none => none
      else if c == '[' then
        match skipJWs t with
        | ']' :: r => some (Json.arr [], r)
        | s2 =>
          match parseElems fuel s2 with
          | some (xs, rest) => some (Json.arr xs, rest)
          | none => none
      else if c == '"' then
        match parseJString t with
        | some (content, rest) => some (Json.str ⟨content⟩, rest)
        | none => none
      else if isPre "true".data (c :: t) then some (Json.bool true, t.drop 3)
      else if isPre "false".data (c :: t) then some (Json.bool false, t.drop 4)
      else if isPre "null".data (c :: t) then some (Json.null, t.drop 3)
      else if isPre "NaN".data (c :: t) then some (Json.num "NaN", t.drop 2)
      else
        match parseNumber (c :: t) with
        | some (lex, rest) => some (Json.num ⟨lex⟩, rest)
        | none => none

/-- Parse the (non-empty) element list of an array. -/
def parseElems : Nat → List Char → Option (List Json × List Char)
  | 0, _ => none
  | fuel + 1, s =>
    match parseValue fuel s with
    | none => none
    | some (v, rest) =>
      match skipJWs rest with
      | ',' :: r => (parseElems fuel r).map fun p => (v :: p.1, p.2)
      | ']' :: r => some ([v], r)
      | _ => none

/-- Parse the (non-empty) member list of an object. -/
def parseMembers : Nat → List Char → Option (List (String × Json) × List Char)
  | 0, _ => none
  | fuel + 1, s =>
    match s with
    | '"' :: t =>
      match parseJString t with
      | none => none
      | some (key, rest) =>
        match skipJWs rest with
        | ':' :: r =>
          match parseValue fuel r with
          | none => none
          | some (v, rest2) =>
            match skipJWs rest2 with
            | ',' :: r2 =>
              (parseMembers fuel (skipJWs r2)).map fun p =>
                ((⟨key⟩, v) :: p.1, p.2)
            | '}' :: r2 => some ([(⟨key⟩, v)], r2)
            | _ => none
        | _ => none
    | _ => none

end

/-- Function `json.loads`: the whole input must be a single JSON document
surrounded by optional whitespace. -/
def json_loads (s : String) : Option Json :=
  match parseValue (2 * s.length + 2) s.data with
  | some (v, rest) => if (skipJWs rest).isEmpty then some v else none
  | none => none

/-- The search `re.search(r"{.*}", raw, re.DOTALL)` and `match.group(0)`: from the
first `{` to the last `}` after it, when such a pair exists. -/
def braceExtract (s : List Char) : Option (List Char) :=
  let pre := s.dropWhile fun c => c != '{'
  match pre with
  | [] => none
  | _ :: _ =>
    let rev := pre.reverse.dropWhile fun c => c != '}'
    match rev with
    | [] => none
    | _ :: _ => if 2 ≤ rev.length then some rev.reverse else none

/-- Python `dict.get` on the association-list model. -/
def jsonGet (kvs : List (String × Json)) (k : String) : Option Json :=
  (kvs.find? fun p => p.1 == k).map Prod.snd

/-- Access `payload.get("topics", [])` — raises `AttributeError` when the
payload is not a dict. -/
def pyGetTopics : Json → Except String Json
  | Json.obj kvs => Except.ok ((jsonGet kvs "topics").getD (Json.arr []))
  | _ => Except.error "AttributeError"

/-- Function `topics.generate_topics`, given the backend's raw `output_text`
(prompt construction and the network call are abstracted into the
oracle response): strip, try `json.loads`; on failure extract the first
`{...}` span and parse it — a second failure (or a non-dict payload)
propagates as an uncaught exception, modelled as `Except.error`. -/
def generate_topics (responseText : String) : Except String Json :=
  let raw := pyStrip responseText
  match json_loads raw with
  | some payload => pyGetTopics payload
  | none =>
    match braceExtract raw.data with
    | none => Except.ok (Json.arr [])
    | some sub =>
      match json_loads ⟨sub⟩ with
      | some payload => pyGetTopics payload
      | none => Except.error "JSONDecodeError"

/--
**C3 (counterexample).** The claim says `generate_topics` never raises
on unparseable backend output.  But only the first `json.loads` is
guarded: for the response `"{oops}"` (from which no JSON topics object
can be obtained) the brace-extraction fallback finds `"{oops}"`, the
second unguarded `json.loads` raises `json.JSONDecodeError`, and the
error propagates instead of an empty topic list being returned.
-/
theorem claim_C3_counterexample :
    generate_topics "{oops}" = Except.error "JSONDecodeError" ∧
    generate_topics "{oops}" ≠ Except.ok (Json.arr []) := by
  refine ⟨rfl, ?_⟩
  intro h
  exact Except.noConfusion ((rfl : generate_topics "{oops}" =
    Except.error "JSONDecodeError") ▸ h)

/--
**C3 (amended).** `generate_topics` returns the empty sequence, rather
than raising, exactly on those backend responses where the direct JSON
parse fails and no `{...}` candidate span exists; when a candidate span
is found but fails to parse (or the payload is not a dict), the error
propagates.
-/
theorem claim_C3_no_brace_empty (t : String)
    (h1 : json_loads (pyStrip t) = none)
    (h2 : braceExtract (pyStrip t).data = none) :
    generate_topics t = Except.ok (Json.arr []) := by
  unfold generate_topics
  simp only [h1, h2]

/-- Closed witness for the amended C3 theorem. -/
theorem claim_C3_no_brace_empty_witness :
    generate_topics "no json here" = Except.ok (Json.arr []) :=
  claim_C3_no_brace_empty "no json here" rfl rfl

/-! ## `utils.META_SCHEMA` and `content_bot.validate_meta_schema` -/

/-- The `required` key list of `META_SCHEMA`. -/
def metaRequired : List String :=
  ["title", "keywords", "description", "platform", "date", "slug"]

/-- JSON-Schema `{"type": "string"}`. -/
def isStr : Json → Bool
  | Json.str _ => true
  | _ => false

/-- The per-property constraints of `META_SCHEMA`: `keywords` is an
array of exactly 5 strings, `description` a string of 155–160
characters, and the four other declared properties strings. -/
def propOk (k : String) (v : Json) : Bool :=
  if k == "keywords" then
    match v with
    | Json.arr xs => xs.all isStr && xs.length == 5
    | _ => false
  else if k == "description" then
    match v with
    | Json.str s => decide (155 ≤ s.length) && decide (s.length ≤ 160)
    | _ => false
  else if k == "title" || k == "platform" || k == "date" || k == "slug" then
    isStr v
  else true

/-- Validation `jsonschema.validate(instance, META_SCHEMA)` succeeds: the instance
is an object with all six required keys, no additional properties, and
every property satisfying its schema. -/
def metaSchemaOk (j : Json) : Bool :=
  match j with
  | Json.obj kvs =>
    (metaRequired.all fun k => kvs.any fun p => p.1 == k) &&
    (kvs.all fun p => metaRequired.contains p.1) &&
    (kvs.all fun p => propOk p.1 p.2)
  | _ => false

/-- A meta object with the six keys in pipeline order. -/
def metaObj (title : String) (kws : List String)
    (desc platform dt slug : String) : List (String × Json) :=
  [("title", Json.str title), ("keywords", Json.arr (kws.map Json.str)),
   ("description", Json.str desc), ("platform", Json.str platform),
   ("date", Json.str dt), ("slug", Json.str slug)]

/-- The canonical valid meta object (the repository test's instance,
with a 155-character description). -/
def goodMeta : List (String × Json) :=
  metaObj "Test" ["one", "two", "three", "four", "five"]
    ⟨List.replicate 155 'x'⟩ "linkedin" "2024-01-02" "test"

/-- The object `goodMeta` with one key removed. -/
def goodMetaWithout (k : String) : List (String × Json) :=
  goodMeta.filter fun p => p.1 != k

/--
**C5.** Schema validation succeeds for every meta object with the six
required string-typed keys, no extras, exactly 5 string keywords and a
155–160 character description; it fails when any one of the six
required keys is removed, when any extra key is added, when the
keywords array has 4 or 6 items, and when the description has length
154 or 161.
-/
theorem claim_C5_meta_schema :
    (∀ (t p d s desc : String) (kws : List String), kws.length = 5 →
      155 ≤ desc.length → desc.length ≤ 160 →
      metaSchemaOk (Json.obj (metaObj t kws desc p d s)) = true) ∧
    (∀ k ∈ metaRequired,
      metaSchemaOk (Json.obj (goodMetaWithout k)) = false) ∧
    (∀ (k : String) (v : Json), metaRequired.contains k = false →
      metaSchemaOk (Json.obj (goodMeta ++ [(k, v)])) = false) ∧
    metaSchemaOk (Json.obj (metaObj "Test" ["one", "two", "three", "four"]
      ⟨List.replicate 155 'x'⟩ "linkedin" "2024-01-02" "test")) = false ∧
    metaSchemaOk (Json.obj (metaObj "Test"
      ["one", "two", "three", "four", "five", "six"]
      ⟨List.replicate 155 'x'⟩ "linkedin" "2024-01-02" "test")) = false ∧
    metaSchemaOk (Json.obj (metaObj "Test"
      ["one", "two", "three", "four", "five"]
      ⟨List.replicate 154 'x'⟩ "linkedin" "2024-01-02" "test")) = false ∧
    metaSchemaOk (Json.obj (metaObj "Test"
      ["one", "two", "three", "four", "five"]
      ⟨List.replicate 161 'x'⟩ "linkedin" "2024-01-02" "test")) = false := by
  refine ⟨?_, by decide, ?_, by decide, by decide, by decide, by decide⟩
  · intro t p d s desc kws h5 h155 h160
    have hstr : (kws.map Json.str).all isStr = true := by
      rw [List.all_eq_true]
      intro x hx
      rcases List.mem_map.mp hx with ⟨y, _, hy⟩
      rw [← hy]
      rfl
    have hlen : ((kws.map Json.str).length == 5) = true := by
      rw [List.length_map, h5]
      rfl
    simp only [metaSchemaOk, metaObj, metaRequired]
    simp [hstr, hlen, propOk, isStr, h155, h160, h5]
  · intro k v hk
    simp only [metaSchemaOk]
    rw [show ((goodMeta ++ [(k, v)]).all fun p => metaRequired.contains p.1)
        = false by
      rw [List.all_append]
      rw [show (([(k, v)] : List (String × Json)).all
          fun p => metaRequired.contains p.1) = false from by
        simp only [List.all_cons, List.all_nil, Bool.and_true]
        exact hk]
      exact Bool.and_false _]
    simp only [Bool.and_false, Bool.false_and]

/-- Closed witness for C5 at concrete inputs. -/
theorem claim_C5_meta_schema_witness :
    metaSchemaOk (Json.obj goodMeta) = true ∧
    metaSchemaOk (Json.obj (goodMetaWithout "title")) = false ∧
    metaSchemaOk (Json.obj (goodMeta ++ [("extra", Json.str "x")])) =
      false := by
  have h := claim_C5_meta_schema
  refine ⟨?_, h.2.1 "title" (by decide), h.2.2.1 "extra" (Json.str "x")
    (by decide)⟩
  have hg := h.1 "Test" "linkedin" "2024-01-02" "test"
    (⟨List.replicate 155 'x'⟩ : String) ["one", "two", "three", "four", "five"]
    rfl (by decide) (by decide)
  exact hg

/-! ## `writer.validate_meta` -/

/-- Python `len()`: defined for sized values (strings, lists, dicts),
`TypeError` otherwise. -/
def pyLen : Json → Except String Nat
  | Json.str s => Except.ok s.length
  | Json.arr l => Except.ok l.length
  | Json.obj kvs => Except.ok kvs.length
  | _ => Except.error "TypeError"

/-- Python truthiness of a JSON value (`None`, `False`, empty
containers, empty strings and zero numbers are falsy; `NaN` and
`Infinity` lexemes are truthy). -/
def pyTruthy : Json → Bool
  | Json.null => false
  | Json.bool b => b
  | Json.str s => !s.data.isEmpty
  | Json.arr l => !l.isEmpty
  | Json.obj l => !l.isEmpty
  | Json.num lex =>
    ((lex.data.takeWhile fun c => c != 'e' && c != 'E').any
      fun c => c.isDigit && c != '0') ||
    (lex.data.any fun c => c == 'I' || c == 'N')

/-- Function `writer.validate_meta`: the rule-based meta validator.  A missing
`keywords` key defaults to `[]` and a missing `description` to `""`
(via `dict.get`); non-sized values under those keys make `len()`
raise. -/
def validate_meta (meta : List (String × Json)) :
    Except String (List String) := do
  let kwLen ← pyLen ((jsonGet meta "keywords").getD (Json.arr []))
  let descLen ← pyLen ((jsonGet meta "description").getD (Json.str ""))
  let errs1 := if kwLen ≠ 5 then ["Keywords must include 5 items."] else []
  let errs2 :=
    if ¬(155 ≤ descLen ∧ descLen ≤ 160) then
      ["Description must be 155-160 characters."] else []
  let errs3 :=
    if ¬pyTruthy ((jsonGet meta "title").getD Json.null) then
      ["Title missing."] else []
  return errs1 ++ errs2 ++ errs3

/-- A value `len()` accepts. -/
def sized : Json → Bool
  | Json.str _ => true
  | Json.arr _ => true
  | Json.obj _ => true
  | _ => false

/-- The length `len()` returns on a sized value. -/
def jsonSize : Json → Nat
  | Json.str s => s.length
  | Json.arr l => l.length
  | Json.obj kvs => kvs.length
  | _ => 0

theorem pyLen_of_sized {v : Json} (h : sized v = true) :
    pyLen v = Except.ok (jsonSize v) := by
  cases v <;> first | rfl | (exfalso; simp [sized] at h)

/--
**C10 (counterexample).** The claim says `validate_meta` is total on
arbitrary meta dictionaries and never raises; but the code calls
`len()` on the value under `"keywords"` (and `"description"`), so a
non-sized value such as `{"keywords": True}` raises `TypeError`.
-/
theorem claim_C10_counterexample :
    validate_meta [("keywords", Json.bool true)] =
      Except.error "TypeError" := by
  rfl

/--
**C10 (amended).** On every meta dictionary whose `keywords` and
`description` values (after the `dict.get` defaults) are sized,
`validate_meta` returns (never raises) exactly the applicable error
strings, in order: the 5-item keywords error, the 155–160 description
error, and the truthiness-based title error.  In particular a missing
`keywords` key is treated as the empty list and reported via the
5-item error, a missing `description` as the empty string via the
length error, and a missing title via the title error.
-/
theorem claim_C10_validate_meta_total (m : List (String × Json))
    (hk : sized ((jsonGet m "keywords").getD (Json.arr [])) = true)
    (hd : sized ((jsonGet m "description").getD (Json.str "")) = true) :
    validate_meta m = Except.ok (
      (if jsonSize ((jsonGet m "keywords").getD (Json.arr [])) ≠ 5 then
        ["Keywords must include 5 items."] else []) ++
      (if ¬(155 ≤ jsonSize ((jsonGet m "description").getD (Json.str "")) ∧
          jsonSize ((jsonGet m "description").getD (Json.str "")) ≤ 160) then
        ["Description must be 155-160 characters."] else []) ++
      (if ¬pyTruthy ((jsonGet m "title").getD Json.null) then
        ["Title missing."] else [])) ∧
    (jsonGet m "keywords" = none →
      ∃ errs, validate_meta m = Except.ok errs ∧
        "Keywords must include 5 items." ∈ errs) ∧
    (jsonGet m "description" = none →
      ∃ errs, validate_meta m = Except.ok errs ∧
        "Description must be 155-160 characters." ∈ errs) ∧
    (jsonGet m "title" = none →
      ∃ errs, validate_meta m = Except.ok errs ∧ "Title missing." ∈ errs) := by
  have hmain : validate_meta m = Except.ok (
      (if jsonSize ((jsonGet m "keywords").getD (Json.arr [])) ≠ 5 then
        ["Keywords must include 5 items."] else []) ++
      (if ¬(155 ≤ jsonSize ((jsonGet m "description").getD (Json.str "")) ∧
          jsonSize ((jsonGet m "description").getD (Json.str "")) ≤ 160) then
        ["Description must be 155-160 characters."] else []) ++
      (if ¬pyTruthy ((jsonGet m "title").getD Json.null) then
        ["Title missing."] else [])) := by
    unfold validate_meta
    rw [pyLen_of_sized hk, pyLen_of_sized hd]
    rfl
  refine ⟨hmain, ?_, ?_, ?_⟩
  · intro hnone
    refine ⟨_, hmain, ?_⟩
    rw [show (jsonGet m "keywords").getD (Json.arr []) = Json.arr [] by
      rw [hnone]; rfl]
    rw [if_pos (by simp [jsonSize])]
    exact List.mem_append_left _
      (List.mem_append_left _ (List.mem_singleton.mpr rfl))
  · intro hnone
    refine ⟨_, hmain, ?_⟩
    rw [show (jsonGet m "description").getD (Json.str "") = Json.str "" by
      rw [hnone]; rfl]
    refine List.mem_append_left _ (List.mem_append_right _ ?_)
    rw [if_pos (by simp [jsonSize])]
    exact List.mem_singleton.mpr rfl
  · intro hnone
    refine ⟨_, hmain, ?_⟩
    rw [show (jsonGet m "title").getD Json.null = Json.null by
      rw [hnone]; rfl]
    refine List.mem_append_right _ ?_
    rw [if_pos (by simp [pyTruthy])]
    exact List.mem_singleton.mpr rfl

/-- Closed witness for the amended C10 theorem: the empty meta
dictionary gets all three errors and raises nothing. -/
theorem claim_C10_validate_meta_total_witness :
    validate_meta [] = Except.ok
      ["Keywords must include 5 items.",
       "Description must be 155-160 characters.", "Title missing."] ∧
    (∃ errs, validate_meta [] = Except.ok errs ∧
      "Keywords must include 5 items." ∈ errs) := by
  have h := claim_C10_validate_meta_total [] (by decide) (by decide)
  exact ⟨h.1, h.2.1 rfl⟩

/-! ## `ContentWriter.generate_package` and the orchestrator -/

/-- The package returned by `generate_package`: article text, social
text, and the meta dict. -/
structure Package where
  article : String
  social : String
  meta : List (String × Json)

/-- The keyword fallback list of `generate_package`. -/
def fallbackKeywords : List String :=
  ["content systems", "AI automation", "digital marketing",
   "CRM workflows", "operations"]

/-- Method `ContentWriter._request_completion` with the backend modelled as an
oracle from the call index to the raw `output_text`: returns the
stripped response and the next call index.  Prompt construction
(company context, outline, error lists) only influences which response
the live backend produces, which the oracle abstracts. -/
def request (b : Nat → String) (n : Nat) : String × Nat :=
  (pyStrip (b n), n + 1)

/-- Method `ContentWriter.generate_package` for one topic, starting at call
index `n`: outline call, article call, self-check, at most one revision
call, extraction, and assembly of the meta dict. -/
def generate_package (b : Nat → String) (n : Nat)
    (topic platform : String) : Package × Nat :=
  let (_outline, n1) := request b n
  let (article, n2) := request b n1
  let errors := self_check article
  let (article2, n3) := if errors ≠ [] then request b n2 else (article, n2)
  let (keywords, description) := extract_meta article2
  let social := extract_social article2
  ({ article := article2, social := social,
     meta :=
      [("title", Json.str topic),
       ("keywords", Json.arr
         ((if keywords ≠ [] then keywords else fallbackKeywords).map
           Json.str)),
       ("description", Json.str description),
       ("platform", Json.str platform),
       ("slug", Json.str "")] }, n3)

/--
**C4.** For every backend oracle, `generate_package` issues the
revision call exactly when `self_check` on the generated article
(the stripped second response) is non-empty; the returned article is
the stripped second response when the check is clean and the stripped
third (revision) response otherwise — never the original failing text;
and the total number of backend calls is exactly 2 when the check is
clean and exactly 3 otherwise.
-/
theorem claim_C4_revision_policy (b : Nat → String)
    (topic platform : String) :
    (generate_package b 0 topic platform).2 =
      (if self_check (pyStrip (b 1)) = [] then 2 else 3) ∧
    (generate_package b 0 topic platform).1.article =
      (if self_check (pyStrip (b 1)) = [] then pyStrip (b 1)
       else pyStrip (b 2)) := by
  unfold generate_package request
  by_cases h : self_check (pyStrip (b 1)) = []
  · simp [h]
  · simp [h]

/--
**C9.** For every backend oracle, topic and platform, the meta produced
by `generate_package` holds a keywords list of between 1 and 5 entries:
extraction truncates to at most 5, the fixed 5-item fallback is
substituted exactly when zero keywords were extracted, and an
extraction of 1 to 4 keywords is passed through unchanged (where it
will later fail the exactly-5 validation).
-/
theorem claim_C9_keyword_bounds (b : Nat → String) (n : Nat)
    (topic platform : String) :
    jsonGet (generate_package b n topic platform).1.meta "keywords" =
      some (Json.arr
        ((if (extract_meta
              (generate_package b n topic platform).1.article).1 ≠ [] then
            (extract_meta (generate_package b n topic platform).1.article).1
          else fallbackKeywords).map Json.str)) ∧
    1 ≤ ((if (extract_meta
            (generate_package b n topic platform).1.article).1 ≠ [] then
          (extract_meta (generate_package b n topic platform).1.article).1
        else fallbackKeywords)).length ∧
    ((if (extract_meta
          (generate_package b n topic platform).1.article).1 ≠ [] then
        (extract_meta (generate_package b n topic platform).1.article).1
      else fallbackKeywords)).length ≤ 5 := by
  have htake : ∀ a : String, (extract_meta a).1.length ≤ 5 := by
    intro a
    unfold extract_meta
    simp only []
    exact List.length_take_le _ _
  refine ⟨?_, ?_, ?_⟩
  · unfold generate_package request
    by_cases h : self_check (pyStrip (b (n + 1))) = [] <;> simp [h, jsonGet]
  · by_cases h : (extract_meta
        (generate_package b n topic platform).1.article).1 = []
    · rw [if_neg (by simp [h])]
      decide
    · rw [if_pos h]
      cases hk : (extract_meta
          (generate_package b n topic platform).1.article).1 with
      | nil => exact absurd hk h
      | cons x xs => simp
  · by_cases h : (extract_meta
        (generate_package b n topic platform).1.article).1 = []
    · rw [if_neg (by simp [h])]
      decide
    · rw [if_pos h]
      exact htake _

/-! ## `content_bot.run_single` and `content_bot.run_calendar` -/

/-- Observable validation/persistence steps of the orchestrator.  Only
the rule-based check, the schema check and the meta write are traced;
backend calls happen before all of them. -/
inductive Event where
  | rules : Event
  | schema : Event
  | write : List (String × Json) → Event

/-- The meta dict the orchestrator validates and writes for one item:
the package's meta with `slug` replaced and `date` added
(`payload["meta"]["slug"] = slug; payload["meta"]["date"] = ...`). -/
def itemMeta (pkg : Package) (topic today : String) :
    List (String × Json) :=
  dictInsert (dictInsert pkg.meta "slug" (Json.str (slugify topic)))
    "date" (Json.str today)

/-- The per-item validation/write sequence shared by `run_single` and
`run_calendar` (the source duplicates this block in both): rule-based
`validate_meta` first — a non-empty error list raises `ValueError`
before the schema validator ever runs — then `validate_meta_schema`
(raising `ValidationError` on failure), then the write. -/
def process_meta (pkg : Package) (topic today : String) :
    List Event × Option String :=
  match validate_meta (itemMeta pkg topic today) with
  | Except.error e => ([Event.rules], some e)
  | Except.ok errs =>
    if errs ≠ [] then
      ([Event.rules], some "ValueError: Meta validation failed")
    else if metaSchemaOk (Json.obj (itemMeta pkg topic today)) then
      ([Event.rules, Event.schema, Event.write (itemMeta pkg topic today)],
        none)
    else
      ([Event.rules, Event.schema], some "ValidationError")

/-- Function `content_bot.run_single` (today's date abstracted as a
parameter). -/
def run_single (b : Nat → String) (topic platform today : String) :
    List Event × Option String :=
  process_meta (generate_package b 0 topic platform).1 topic today

/-- Function `content_bot.run_calendar` over the generated topic titles: each
item runs the full pipeline and validation in order; a raise aborts the
whole run. -/
def run_calendar (b : Nat → String) (topics : List String)
    (platform today : String) (n : Nat) : List Event × Option String :=
  match topics with
  | [] => ([], none)
  | t :: rest =>
    match process_meta (generate_package b n t platform).1 t today with
    | (ev, some e) => (ev, some e)
    | (ev, none) =>
      (ev ++ (run_calendar b rest platform today
          (generate_package b n t platform).2).1,
        (run_calendar b rest platform today
          (generate_package b n t platform).2).2)

theorem process_meta_write_safe (pkg : Package) (topic today : String) :
    ∀ m, Event.write m ∈ (process_meta pkg topic today).1 →
      validate_meta m = Except.ok [] ∧
        metaSchemaOk (Json.obj m) = true := by
  intro m hm
  unfold process_meta at hm
  cases hv : validate_meta (itemMeta pkg topic today) with
  | error e =>
    rw [hv] at hm
    dsimp only [] at hm
    rw [List.mem_singleton] at hm
    exact Event.noConfusion hm
  | ok errs =>
    rw [hv] at hm
    dsimp only [] at hm
    by_cases he : errs = []
    · subst he
      rw [if_neg (show ¬(([] : List String) ≠ []) from by simp)] at hm
      cases hs : metaSchemaOk (Json.obj (itemMeta pkg topic today)) with
      | true =>
        rw [hs, if_pos rfl] at hm
        dsimp only [] at hm
        rcases List.mem_cons.mp hm with h | h
        · exact Event.noConfusion h
        rcases List.mem_cons.mp h with h' | h'
        · exact Event.noConfusion h'
        rw [List.mem_singleton] at h'
        injection h' with hmeq
        subst hmeq
        exact ⟨hv, hs⟩
      | false =>
        rw [hs, if_neg (show ¬(false = true) from by simp)] at hm
        dsimp only [] at hm
        rcases List.mem_cons.mp hm with h | h
        · exact Event.noConfusion h
        rw [List.mem_singleton] at h
        exact Event.noConfusion h
    · rw [if_pos he] at hm
      dsimp only [] at hm
      rw [List.mem_singleton] at hm
      exact Event.noConfusion hm

theorem process_meta_head (pkg : Package) (topic today : String) :
    (process_meta pkg topic today).1.head? = some Event.rules := by
  unfold process_meta
  cases hv : validate_meta (itemMeta pkg topic today) with
  | error e => rfl
  | ok errs =>
    dsimp only []
    by_cases he : errs = []
    · subst he
      rw [if_neg (show ¬(([] : List String) ≠ []) from by simp)]
      cases hs : metaSchemaOk (Json.obj (itemMeta pkg topic today)) with
      | true =>
        rw [if_pos rfl]
        rfl
      | false =>
        rw [if_neg (show ¬(false = true) from by simp)]
        rfl
    · rw [if_pos he]
      rfl

/--
**C8.** In both `run_single` and `run_calendar`, a meta object is
written only after the rule-based validator returned an empty error
list and the schema validator then passed; whenever `validate_meta`
returns a non-empty error list the run raises with only the rule check
in the trace — before the schema validator or any write; and the trace
of an item always begins with the rule-based check, so no meta is
ever persisted without passing both validators and the rule check
always precedes the schema check.
-/
theorem claim_C8_validate_before_write (b : Nat → String)
    (topic platform today : String) (topics : List String) (n : Nat) :
    (∀ m, Event.write m ∈ (run_single b topic platform today).1 →
      validate_meta m = Except.ok [] ∧
        metaSchemaOk (Json.obj m) = true) ∧
    (run_single b topic platform today).1.head? = some Event.rules ∧
    (∀ errs, validate_meta (itemMeta
        (generate_package b 0 topic platform).1 topic today) =
        Except.ok errs → errs ≠ [] →
      (run_single b topic platform today).1 = [Event.rules] ∧
      (run_single b topic platform today).2 ≠ none) ∧
    (∀ m, Event.write m ∈ (run_calendar b topics platform today n).1 →
      validate_meta m = Except.ok [] ∧
        metaSchemaOk (Json.obj m) = true) := by
  refine ⟨?_, ?_, ?_, ?_⟩
  · intro m hm
    exact process_meta_write_safe _ _ _ m hm
  · exact process_meta_head _ _ _
  · intro errs hv hne
    unfold run_single process_meta
    rw [hv]
    dsimp only []
    rw [if_pos hne]
    exact ⟨rfl, by simp⟩
  · induction topics generalizing n with
    | nil =>
      intro m hm
      rw [run_calendar] at hm
      exact absurd hm (List.not_mem_nil _)
    | cons t rest ih =>
      intro m hm
      rw [run_calendar] at hm
      rcases hpm : process_meta (generate_package b n t platform).1 t today
        with ⟨ev, err⟩
      rw [hpm] at hm
      cases err with
      | some e =>
        exact process_meta_write_safe _ _ _ m (by rw [hpm]; exact hm)
      | none =>
        rcases List.mem_append.mp hm with h | h
        · exact process_meta_write_safe _ _ _ m (by rw [hpm]; exact h)
        · exact ih _ m h

/-! ## Concrete sample article (from `tests/test_basic.py`) -/

/-- The full sample article used by the repository's own test suite:
all five required headings, seven `## ` markers, a checklist, a
five-term `SEO Keywords:` line, a 155-character `Meta Description:`
line and a `Social Snippets:` section. -/
def sampleArticle : String :=
  "\n# Title\n## Hook\nOpening hook.\n## Context\nContext section.\n" ++
  "## Section One\nDetails.\n## Section Two\nDetails.\n" ++
  "## Section Three\nDetails.\n## What to do next\n- Do this\n- Do that\n" ++
  "## Conclusion\nWrap-up.\nSEO Keywords: one, two, three, four, five\n" ++
  "Meta Description: " ++ ⟨List.replicate 155 'x'⟩ ++
  "\nSocial Snippets:\nLinkedIn: ...\n"

/-- The sample article with a genuine em dash (U+2014) inserted. -/
def emDashArticle : String :=
  sampleArticle ++ "A dash " ++ ⟨[emDash]⟩ ++ " appears here.\n"

/-- The sample article with the mojibake sequence `mojiDash` (which
contains no em dash character) appended. -/
def mojiArticle : String :=
  sampleArticle ++ mojiDash

/--
**C1.** The claim says `self_check` flags an article containing the em
dash character and is silent when it is absent.  The code instead tests
for the three-character mojibake sequence U+00E2 U+20AC U+201D (the
UTF-8 bytes of an em dash mis-decoded as Windows-1252): an article
containing a real em dash receives no error at all, while an article
containing the mojibake (and no em dash) is flagged.  This contradicts
the code's own error message "Contains em dash." and the prompts'
"Avoid em dashes" instruction, so the check is a slip (an encoding
corruption of the intended `"—" in article_markdown` test).
-/
theorem claim_C1_em_dash_code_bug :
    containsSub emDashArticle ⟨[emDash]⟩ = true ∧
    self_check emDashArticle = [] ∧
    containsSub mojiArticle ⟨[emDash]⟩ = false ∧
    self_check mojiArticle = ["Contains em dash."] := by
  refine ⟨by decide, by decide, by decide, by decide⟩

/--
**C2.** The sample article passes `self_check`; removing any single one
of the five required heading markers (every occurrence of the marker
string, as `article.replace(marker, "")` would) yields a non-empty
error list containing the message naming that heading.
-/
theorem claim_C2_missing_headings :
    self_check sampleArticle = [] ∧
    (self_check (removeSub sampleArticle "# ") ≠ [] ∧
      "Missing heading: # " ∈ self_check (removeSub sampleArticle "# ")) ∧
    (self_check (removeSub sampleArticle "## Hook") ≠ [] ∧
      "Missing heading: ## Hook" ∈
        self_check (removeSub sampleArticle "## Hook")) ∧
    (self_check (removeSub sampleArticle "## Context") ≠ [] ∧
      "Missing heading: ## Context" ∈
        self_check (removeSub sampleArticle "## Context")) ∧
    (self_check (removeSub sampleArticle "## What to do next") ≠ [] ∧
      "Missing heading: ## What to do next" ∈
        self_check (removeSub sampleArticle "## What to do next")) ∧
    (self_check (removeSub sampleArticle "## Conclusion") ≠ [] ∧
      "Missing heading: ## Conclusion" ∈
        self_check (removeSub sampleArticle "## Conclusion")) := by
  refine ⟨by decide, ⟨by decide, by decide⟩, ⟨by decide, by decide⟩,
    ⟨by decide, by decide⟩, ⟨by decide, by decide⟩, ⟨by decide, by decide⟩⟩

/-- The meta dict produced by a `run_single` whose backend always
answers with the test suite's sample article. -/
def wMeta : List (String × Json) :=
  [("title", Json.str "Test"),
   ("keywords",
     Json.arr (["one", "two", "three", "four", "five"].map Json.str)),
   ("description", Json.str ⟨List.replicate 155 'x'⟩),
   ("platform", Json.str "linkedin"),
   ("slug", Json.str "test"),
   ("date", Json.str "2024-01-02")]

/-- Closed witness for C8: a concrete run that reaches the write step,
whose written meta therefore passed both validators. -/
theorem claim_C8_validate_before_write_witness :
    validate_meta wMeta = Except.ok [] ∧
      metaSchemaOk (Json.obj wMeta) = true := by
  have h := claim_C8_validate_before_write (fun _ => sampleArticle)
    "Test" "linkedin" "2024-01-02" [] 0
  refine h.1 wMeta ?_
  rw [show (run_single (fun _ => sampleArticle)
      "Test" "linkedin" "2024-01-02").1 =
      [Event.rules, Event.schema, Event.write wMeta] from rfl]
  exact List.mem_cons_of_mem _
    (List.mem_cons_of_mem _ (List.mem_cons_self _ _))


end Evolvra
